import Mathlib

/-!
# go-keyvault: the authenticating transport

A shallow embedding of `client.go` and `token.go` of the `keyvault` package
(the challenge parser `getAuthConfig`, the token types of `token.go`,
`newBearerToken`, `Client.authenticate`, `copyRequest` and the retry loop
`Client.Do`), followed by theorems about them.

Modelling conventions.

* A Go `string` is a Lean `String`; the functions of package `strings` work
  on its list of characters. The separators and cut sets the program uses are
  ASCII, so for valid UTF-8 text the byte-wise Go functions and the
  character-wise ones below agree. Strings that are not valid UTF-8 are
  outside the model.
* An `error` is the text of its message.
* A `time.Time` is an integer count of nanoseconds; a `time.Duration` is an
  `int64`, so the product `time.Duration(n) * time.Second` wraps modulo `2^64`.
* `http.Header` maps and their `[]string` values live in an explicit heap, so
  that sharing between a request and its copy can be expressed.
* Everything outside the package (the HTTP round trip, the clock, the JSON
  decoder, URL parsing and escaping) is a field of `Env`. The round trip and
  the clock are indexed by the number of calls made before, so that an `Env`
  can stand for any sequence of answers and readings.
* The state carries a record of the calls made (`Event`), which no function
  reads; it is there to state how often something was called.
* The `for` loop of `Client.Do` takes a bound on the number of passes; the
  theorems show that two passes are always enough.
-/

namespace keyvault

/-! ## Package `strings` -/

/-- The predicate `unicode.IsSpace`: the white space characters of Unicode. -/
def isSpace (c : Char) : Bool :=
  let n := c.toNat
  (9 ≤ n && n ≤ 13) || n == 32 || n == 0x85 || n == 0xA0 || n == 0x1680 ||
  (0x2000 ≤ n && n ≤ 0x200A) || n == 0x2028 || n == 0x2029 || n == 0x202F ||
  n == 0x205F || n == 0x3000

/-- The function `strings.TrimSpace`. -/
def TrimSpace (s : List Char) : List Char :=
  (s.dropWhile isSpace).rdropWhile isSpace

/-- The function `strings.Trim(s, cutset)` for a cut set of one character. -/
def Trim (s : List Char) (c : Char) : List Char :=
  (s.dropWhile (· == c)).rdropWhile (· == c)

/-- Cuts `s` around the first occurrence of `sep`, if there is one. -/
def cut (sep : Char) : List Char → Option (List Char × List Char)
  | [] => none
  | x :: xs =>
    if x = sep then some ([], xs)
    else match cut sep xs with
      | none => none
      | some (a, b) => some (x :: a, b)

/-- The function `strings.SplitN(s, sep, 2)` for a separator of one character:
the whole string when `sep` does not occur, else the text before and the
text after its first occurrence. -/
def SplitN2 (s : List Char) (sep : Char) : List (List Char) :=
  match cut sep s with
  | none => [s]
  | some (a, b) => [a, b]

/-- The function `strings.Split(s, sep)` for a separator of one character. -/
def Split (sep : Char) : List Char → List (List Char)
  | [] => [[]]
  | x :: xs =>
    if x = sep then [] :: Split sep xs
    else match Split sep xs with
      | [] => [[x]]
      | p :: ps => (x :: p) :: ps

/-! ## `client.go`: the challenge parser -/

/-- An `error` value, identified with its message. -/
abbrev Error := String

deriving instance DecidableEq for Except

/-- The struct `authConfig`. -/
structure authConfig where
  endpoint : String
  resource : String
deriving DecidableEq, Repr

/-- The body of the `for ... range strings.Split(s[1], ",")` loop of
`getAuthConfig` (client.go:52-62). -/
def getAuthConfig.step (cfg : authConfig) (sub : List Char) : authConfig :=
  match SplitN2 (TrimSpace sub) '=' with
  | [key, v] =>
    let val := String.mk (Trim v '"')
    if key = "authorization".data then { cfg with endpoint := val }
    else if key = "resource".data then { cfg with resource := val }
    else cfg
  | _ => cfg

/-- The function `getAuthConfig` (client.go:39-74) applied to the value
`authStr` that `res.Header.Get(authHeader)` returned. -/
def getAuthConfig.parse (authStr : String) : Except Error authConfig :=
  if authStr = "" then
    .error "Missing WWW-Authenticate header in response"
  else
    match SplitN2 authStr.data ' ' with
    | [s0, s1] =>
      if s0 ≠ "Bearer".data then .error "Authentication method must be Bearer"
      else
        let cfg := (Split ',' s1).foldl getAuthConfig.step ⟨"", ""⟩
        if cfg.endpoint = "" then .error "Empty endpoint URI"
        else if cfg.resource = "" then .error "Empty resource URI"
        else .ok cfg
    | _ => .error "Authentication method must be Bearer"

/-- The constant `authHeader`. -/
def authHeader : String := "WWW-Authenticate"

/-! ## `token.go`: tokens and the token cache -/

/-- The struct `defaultToken`; `expiresAt` is an instant in nanoseconds. -/
structure defaultToken where
  token : String
  expiresAt : Int
deriving DecidableEq, Repr

/-- A value of the interface `Token` as the package builds them: a pointer to
a `defaultToken`, or a `noToken`. -/
inductive Token
  | bearer (d : defaultToken)
  | noToken
deriving DecidableEq, Repr

/-- The struct `defaultTokenStorage`; `none` is the nil interface value. -/
structure defaultTokenStorage where
  token : Option Token
deriving DecidableEq, Repr

/-- The method `defaultTokenStorage.Get` (token.go:57-62). -/
def defaultTokenStorage.Get (d : defaultTokenStorage) : Token :=
  match d.token with
  | none => Token.noToken
  | some t => t

/-- The method `defaultTokenStorage.Store` (token.go:64-66). -/
def defaultTokenStorage.Store (_d : defaultTokenStorage) (t : Token) : defaultTokenStorage :=
  { token := some t }

/-- The struct `tokenResponse`; `ExpiresIn` is the text of a `json.Number`. -/
structure tokenResponse where
  ExpiresIn : String
  AccessToken : String
deriving DecidableEq, Repr

/-- The value of a string of decimal digits, `none` when a character is not a digit. -/
def digitsValue : List Char → Nat → Option Nat
  | [], acc => some acc
  | c :: cs, acc => if c.isDigit then digitsValue cs (acc * 10 + (c.toNat - 48)) else none

/-- The method `json.Number.Int64`, that is `strconv.ParseInt(s, 10, 64)`: an
optional sign, then one or more decimal digits, and the value must lie in
`[-2^63, 2^63)`. -/
def Number.Int64 (n : String) : Except Error Int :=
  let syntaxErr : Error := "strconv.ParseInt: parsing \"" ++ n ++ "\": invalid syntax"
  let rangeErr : Error := "strconv.ParseInt: parsing \"" ++ n ++ "\": value out of range"
  match n.data with
  | [] => .error syntaxErr
  | c :: cs =>
    let neg := c == '-'
    let digits := if c == '+' || c == '-' then cs else c :: cs
    if digits = [] then .error syntaxErr
    else match digitsValue digits 0 with
      | none => .error syntaxErr
      | some un =>
        if !neg && un ≥ 2 ^ 63 then .error rangeErr
        else if neg && un > 2 ^ 63 then .error rangeErr
        else .ok (if neg then -(un : Int) else (un : Int))

/-- Reduction of an integer to the range of `int64` (two's complement wrap). -/
def wrap64 (x : Int) : Int := (x + 2 ^ 63) % 2 ^ 64 - 2 ^ 63

/-! ## Package `net/http`: headers, requests, responses -/

/-- The function `validHeaderFieldByte` of package `textproto`. -/
def validHeaderFieldByte (c : Char) : Bool :=
  c.isAlphanum || "!#$%&'*+-.^_`|~".data.contains c

/-- The capitalisation pass of `textproto.canonicalMIMEHeaderKey`. -/
def canonicalize : Bool → List Char → List Char
  | _, [] => []
  | upper, c :: cs =>
    let c1 := if upper then c.toUpper else c.toLower
    c1 :: canonicalize (c1 == '-') cs

/-- The function `textproto.CanonicalMIMEHeaderKey`. -/
def CanonicalMIMEHeaderKey (s : String) : String :=
  if s.data.all validHeaderFieldByte then String.mk (canonicalize true s.data) else s

/-- A header as a list of keys with their values (what goes over the wire). -/
abbrev HeaderValues := List (String × List String)

/-- The method `Header.Get` on the values of a header. -/
def HeaderValues.Get (h : HeaderValues) (key : String) : String :=
  match h.lookup (CanonicalMIMEHeaderKey key) with
  | some (v :: _) => v
  | _ => ""

/-- A map object of type `http.Header`: each key is bound to the address of
its `[]string` value. -/
abbrev HeaderMap := AList (fun _ : String => Nat)

/-- The part of the Go heap the program touches: the `http.Header` maps and
the `[]string` backing arrays, each addressed by its position. -/
structure Heap where
  maps : List HeaderMap
  slices : List (List String)
deriving DecidableEq

/-- Allocation of a `[]string` with the given elements. -/
def Heap.newSlice (h : Heap) (v : List String) : Heap × Nat :=
  ({ h with slices := h.slices ++ [v] }, h.slices.length)

/-- The expression `make(http.Header)`. -/
def Heap.newMap (h : Heap) : Heap × Nat :=
  ({ h with maps := h.maps ++ [∅] }, h.maps.length)

/-- The elements of the slice at address `a`. -/
def Heap.slice (h : Heap) (a : Nat) : List String := h.slices.getD a []

/-- The map object a header reference points to; a nil map reads as empty. -/
def Heap.map (h : Heap) (m : Option Nat) : HeaderMap :=
  match m with
  | none => ∅
  | some a => h.maps.getD a ∅

/-- The assignment `m[k] = v` for the map at address `m` and the slice at `v`. -/
def Heap.assign (h : Heap) (m : Nat) (k : String) (v : Nat) : Heap :=
  { h with maps := h.maps.set m ((h.maps.getD m ∅).insert k v) }

/-- The keys and values of the header a reference points to. -/
def Heap.header (h : Heap) (m : Option Nat) : HeaderValues :=
  (h.map m).entries.map fun kv => (kv.1, h.slice kv.2)

/-- The method `Header.Set`: `h[CanonicalMIMEHeaderKey(key)] = []string{value}`. -/
def Header.Set (h : Heap) (m : Nat) (key value : String) : Heap :=
  let (h1, a) := h.newSlice [value]
  h1.assign m (CanonicalMIMEHeaderKey key) a

/-- The method `Header.Add`: `h[key] = append(h[key], value)` for the canonical key. -/
def Header.Add (h : Heap) (m : Nat) (key value : String) : Heap :=
  let k := CanonicalMIMEHeaderKey key
  let old := match (h.map (some m)).lookup k with
    | none => []
    | some a => h.slice a
  let (h1, a) := h.newSlice (old ++ [value])
  h1.assign m k a

/-- The fields of `http.Request` the package reads or writes. `Header` is nil
or the address of a map; `Body` is nil or a reader, named by the bytes it was
created over; `GetBody` is nil or what a call of the function returns. -/
structure Request where
  Method : String
  URL : String
  Header : Option Nat
  Body : Option String
  GetBody : Option (Option String × Option Error)
deriving DecidableEq, Repr

/-- A request as the transport receives it: the header is read through the heap. -/
structure Outbound where
  Method : String
  URL : String
  Header : HeaderValues
  Body : Option String
deriving DecidableEq, Repr

/-- The request `r` as seen by the transport in heap `h`. -/
def Request.outbound (r : Request) (h : Heap) : Outbound :=
  { Method := r.Method, URL := r.URL, Header := h.header r.Header, Body := r.Body }

/-- The fields of `http.Response` the package reads. -/
structure Response where
  StatusCode : Int
  Status : String
  Header : HeaderValues
  Body : String
deriving DecidableEq, Repr

/-- What lies outside the package. `roundTrip k r` is the answer of
`http.DefaultClient.Do` to the request `r` when it is the `k`-th round trip
(counted from 0); `now k` is the `k`-th reading of `time.Now()`; `decode` is
the JSON decoding of a token response body; `urlError` is the error of
`http.NewRequest` for a URL, if any; `queryEscape` is `url.QueryEscape`. -/
structure Env where
  roundTrip : Nat → Outbound → Except Error Response
  now : Nat → Int
  decode : String → Except Error tokenResponse
  urlError : String → Option Error
  queryEscape : String → String

/-- The method `defaultToken.IsValid` / `noToken.IsValid` (token.go:27-32, 52)
at clock reading number `ticks`; returns the number of readings made so far. -/
def Token.IsValid (env : Env) (ticks : Nat) : Token → Bool × Nat
  | .bearer d => (decide (env.now ticks < d.expiresAt), ticks + 1)
  | .noToken => (false, ticks)

/-- The method `defaultToken.SetHeader` / `noToken.SetHeader` (token.go:34-36,
53). On a request whose header is a nil map the Go method of `defaultToken`
panics; `Client.Do` calls it only on the result of `copyRequest`, whose header
is a map, and the heap is left as it is in that case here. -/
def Token.SetHeader (t : Token) (h : Heap) (req : Request) : Heap :=
  match t, req.Header with
  | .bearer d, some m => Header.Set h m "Authorization" ("Bearer " ++ d.token)
  | _, _ => h

/-- The function `newBearerToken` (token.go:73-93). -/
def newBearerToken (env : Env) (ticks : Nat) (res : Response) : Except Error Token × Nat :=
  match env.decode res.Body with
  | .error e => (.error e, ticks)
  | .ok t =>
    match Number.Int64 t.ExpiresIn with
    | .error e => (.error e, ticks)
    | .ok expiresIn =>
      if expiresIn = 0 ∨ t.AccessToken = "" then
        (.error "Invalid token response", ticks)
      else
        (.ok (.bearer { token := t.AccessToken,
                        expiresAt := env.now ticks + wrap64 (expiresIn * 1000000000) }),
         ticks + 1)

/-! ## `client.go`: the client -/

/-- The function `getAuthConfig` (client.go:39-74). -/
def getAuthConfig (res : Response) : Except Error authConfig :=
  getAuthConfig.parse (res.Header.Get authHeader)

/-- The struct `Client`; a nil `Storage` is `none`. The model covers the
package's own `defaultTokenStorage` as the implementation of `TokenStorage`. -/
structure Client where
  ClientID : String
  ClientSecret : String
  Storage : Option defaultTokenStorage
deriving DecidableEq, Repr

/-- The method `Client.storage` (client.go:76-81): the storage it returns and
the client with the field `Storage` set. -/
def Client.storage (c : Client) : defaultTokenStorage × Client :=
  match c.Storage with
  | none => ({ token := none }, { c with Storage := some { token := none } })
  | some d => (d, c)

/-- What the program did, in order (a ghost record; it influences nothing). -/
inductive Event
  | dispatch (r : Outbound) (out : Except Error Response)
  | getAuthConfig (res : Response)
  | authenticate (auth : authConfig)
  | tokenDispatch (r : Outbound) (out : Except Error Response)
  | Store (t : Token)
deriving DecidableEq

/-- The state a call of `Client.Do` works on: the client, the heap, the number
of round trips and of clock readings made so far, and the record of events. -/
structure State where
  client : Client
  heap : Heap
  sent : Nat
  ticks : Nat
  trace : List Event

/-- The constant `tokenPath`. -/
def tokenPath : String := "/oauth2/token"

/-- The constant `oauthAPIVersion`. -/
def oauthAPIVersion : String := "1.0"

/-- The value of `q.Encode()` in `authenticate`: `url.Values.Encode` writes the
keys in sorted order. -/
def encodeForm (env : Env) (c : Client) (auth : authConfig) : String :=
  "client_id=" ++ env.queryEscape c.ClientID ++
  "&client_secret=" ++ env.queryEscape c.ClientSecret ++
  "&grant_type=" ++ env.queryEscape "client_credentials" ++
  "&resource=" ++ env.queryEscape auth.resource

/-- The request `authenticate` sends to the token endpoint. -/
def tokenOutbound (env : Env) (c : Client) (auth : authConfig) : Outbound :=
  { Method := "POST",
    URL := auth.endpoint ++ tokenPath ++ "?api-version=" ++ oauthAPIVersion,
    Header := [("Content-Type", ["application/x-www-form-urlencoded"])],
    Body := some (encodeForm env c auth) }

/-- The method `Client.authenticate` (client.go:83-109). -/
def Client.authenticate (env : Env) (s : State) (auth : authConfig) :
    Except Error Token × State :=
  let s := { s with trace := s.trace ++ [Event.authenticate auth] }
  let body := encodeForm env s.client auth
  let url := auth.endpoint ++ tokenPath ++ "?api-version=" ++ oauthAPIVersion
  match env.urlError url with
  | some e => (.error e, s)
  | none =>
    let h1 := s.heap.newMap
    let h2 := Header.Add h1.1 h1.2 "Content-Type" "application/x-www-form-urlencoded"
    let req : Request :=
      { Method := "POST", URL := url, Header := some h1.2, Body := some body,
        GetBody := some (some body, none) }
    let out := req.outbound h2
    let answer := env.roundTrip s.sent out
    let s1 : State :=
      { s with heap := h2, sent := s.sent + 1,
               trace := s.trace ++ [Event.tokenDispatch out answer] }
    match answer with
    | .error e => (.error e, s1)
    | .ok res =>
      if res.StatusCode ≠ 200 then (.error res.Status, s1)
      else
        ((newBearerToken env s1.ticks res).1,
         { s1 with ticks := (newBearerToken env s1.ticks res).2 })

/-- The body of the `range` loop of `copyRequest` (client.go:116):
`dest.Header[k] = append([]string{}, v...)` for the destination map at `m`. -/
def copyRequest.entry (m : Nat) (hp : Heap) (kv : (_ : String) × Nat) : Heap :=
  (hp.newSlice (hp.slice kv.2)).1.assign m kv.1 (hp.newSlice (hp.slice kv.2)).2

/-- The function `copyRequest` (client.go:111-119): a new map, and for every
key of the source a new slice with the same elements. -/
def copyRequest (h : Heap) (src : Request) : Heap × Request :=
  ((h.map src.Header).entries.foldl (copyRequest.entry h.newMap.2) h.newMap.1,
   { src with Header := some h.newMap.2 })

/-- The token the client's storage returns from `Get`. -/
def Client.cached (c : Client) : Token := c.storage.1.Get

/-- The top of the loop body of `Client.Do` (client.go:124-128): the request
to dispatch, which is the caller's request or a copy carrying the token. -/
def Do.prepare (env : Env) (req : Request) (s : State) : Request × State :=
  let tok := s.client.cached
  let valid := tok.IsValid env s.ticks
  if valid.1 then
    let hr := copyRequest s.heap req
    (hr.2, { s with client := s.client.storage.2, ticks := valid.2,
                    heap := tok.SetHeader hr.1 hr.2 })
  else (req, { s with client := s.client.storage.2, ticks := valid.2 })

/-- The request an attempt hands to the transport. -/
def Do.dispatched (env : Env) (req : Request) (s : State) : Outbound :=
  (Do.prepare env req s).1.outbound (Do.prepare env req s).2.heap

/-- How one pass through the body of the `for` loop of `Client.Do` ends: with a
`return`, or by reaching `attempt++`. Both carry the caller's request object. -/
inductive Step
  | ret (out : Except Error Response) (req : Request) (s : State)
  | next (req : Request) (s : State)

/-- The state at the end of a pass. -/
def Step.state : Step → State
  | .ret _ _ s => s
  | .next _ s => s

/-- The caller's request object at the end of a pass. -/
def Step.req : Step → Request
  | .ret _ r _ => r
  | .next r _ => r

/-- The body of the `for` loop of `Client.Do` (client.go:124-157). -/
def Do.iter (env : Env) (attempt : Nat) (req : Request) (s : State) : Step :=
  let s0 := (Do.prepare env req s).2
  let out := Do.dispatched env req s
  let answer := env.roundTrip s0.sent out
  let s1 : State :=
    { s0 with sent := s0.sent + 1, trace := s0.trace ++ [Event.dispatch out answer] }
  match answer with
  | .error e => .ret (.error e) req s1
  | .ok res =>
    if res.StatusCode ≠ 401 ∨ attempt > 0 then .ret (.ok res) req s1
    else
      let s2 := { s1 with trace := s1.trace ++ [Event.getAuthConfig res] }
      match getAuthConfig res with
      | .error e => .ret (.error e) req s2
      | .ok ac =>
        let au := Client.authenticate env s2 ac
        match au.1 with
        | .error e => .ret (.error e) req au.2
        | .ok tok =>
          let s4 : State :=
            { au.2 with client := { au.2.client.storage.2 with
                                    Storage := some (au.2.client.storage.1.Store tok) },
                        trace := au.2.trace ++ [Event.Store tok] }
          match req.GetBody with
          | none => .next req s4
          | some (b, none) => .next { req with Body := b } s4
          | some (b, some e) => .ret (.error e) { req with Body := b } s4

/-- What a call of `Client.Do` leaves behind: the returned pair, the caller's
request object and the state. -/
structure Outcome where
  result : Except Error Response
  req : Request
  state : State

/-- The `for` loop of `Client.Do` run for at most `fuel` passes, starting
with the given value of `attempt`; `none` when the passes are used up. -/
def Do.loop (env : Env) : Nat → Nat → Request → State → Option Outcome
  | 0, _, _, _ => none
  | fuel + 1, attempt, req, s =>
    match Do.iter env attempt req s with
    | .ret out req1 s1 => some { result := out, req := req1, state := s1 }
    | .next req1 s1 => Do.loop env fuel (attempt + 1) req1 s1

/-- The method `Client.Do` (client.go:121-159). -/
def Client.Do (env : Env) (fuel : Nat) (req : Request) (s : State) : Option Outcome :=
  Do.loop env fuel 0 req s

/-! ## Challenge headers as text -/

/-- A parameter of a challenge as it is written in a header: `pre` spaces, the
key, `=`, the value (between double quotes when `quoted`), `post` spaces. -/
structure Param where
  key : String
  value : String
  quoted : Bool
  pre : Nat
  post : Nat
deriving DecidableEq, Repr

/-- The text of a parameter. -/
def Param.text (p : Param) : List Char :=
  List.replicate p.pre ' ' ++ p.key.data ++
    '=' :: ((if p.quoted then '"' :: p.value.data ++ ['"'] else p.value.data) ++
      List.replicate p.post ' ')

/-- The header `Bearer ` followed by the parameters, separated by commas. -/
def challenge (ps : List Param) : String :=
  String.mk ("Bearer ".data ++ List.intercalate [','] (ps.map Param.text))

/-- The key is free of white space, `=` and commas, and the value of commas. -/
def Param.wellFormed (p : Param) : Prop :=
  (∀ c ∈ p.key.data, isSpace c = false ∧ c ≠ '=' ∧ c ≠ ',') ∧ ',' ∉ p.value.data

instance (p : Param) : Decidable p.wellFormed := by
  unfold Param.wellFormed; infer_instance

/-- The value holds no double quote, and does not end in white space when it
is written without quotes. -/
def Param.clean (p : Param) : Prop :=
  '"' ∉ p.value.data ∧
    (p.quoted = false → ∀ c ∈ p.value.data.getLast?, isSpace c = false)

instance (p : Param) : Decidable p.clean := by
  unfold Param.clean; infer_instance

/-- What a parameter does to the configuration being assembled, read off the
parameter itself. -/
def Param.apply (cfg : authConfig) (p : Param) : authConfig :=
  if p.key = "authorization" then { cfg with endpoint := p.value }
  else if p.key = "resource" then { cfg with resource := p.value }
  else cfg

/-- The header `Bearer authorization="e", resource="r"` written with `a + 1`
spaces after the scheme, `b` spaces before the comma, `c` spaces after it and
`d` spaces at the end. -/
def spacedChallenge (e r : String) (a b c d : Nat) : String :=
  "Bearer" ++ String.mk (List.replicate (a + 1) ' ') ++ "authorization=\"" ++ e ++ "\"" ++
    String.mk (List.replicate b ' ') ++ "," ++ String.mk (List.replicate c ' ') ++
    "resource=\"" ++ r ++ "\"" ++ String.mk (List.replicate d ' ')

/-! ## Reading the record of events and the heap -/

/-- Whether an event is a dispatch of the caller's request (client.go:130). -/
def Event.isDispatch : Event → Bool
  | .dispatch _ _ => true
  | _ => false

/-- Whether an event is a call of `authenticate` (client.go:144). -/
def Event.isAuthenticate : Event → Bool
  | .authenticate _ => true
  | _ => false

/-- Whether an event is a call of `getAuthConfig` (client.go:139). -/
def Event.isGetAuthConfig : Event → Bool
  | .getAuthConfig _ => true
  | _ => false

/-- Whether an event is a call of `Store` (client.go:148). -/
def Event.isStore : Event → Bool
  | .Store _ => true
  | _ => false

/-- The header reference is nil, or it is the address of a map of the heap
all of whose values are slices of the heap. -/
def Heap.holds (h : Heap) (m : Option Nat) : Prop :=
  match m with
  | none => True
  | some a => a < h.maps.length ∧ ∀ kv ∈ (h.maps.getD a ∅).entries, kv.2 < h.slices.length

instance (h : Heap) (m : Option Nat) : Decidable (h.holds m) := by
  unfold Heap.holds
  cases m <;> infer_instance

/-- Every map and every slice of `h` is in `h1`, at its address and unchanged. -/
def Heap.within (h h1 : Heap) : Prop :=
  h.maps <+: h1.maps ∧ h.slices <+: h1.slices

instance (h h1 : Heap) : Decidable (h.within h1) := by
  unfold Heap.within; infer_instance

/-- The values bound to a key in the header a reference points to. -/
def Heap.values (h : Heap) (m : Option Nat) (k : String) : Option (List String) :=
  ((h.map m).lookup k).map h.slice

/-! ## Sample environments -/

/-- A header with a well-formed challenge. -/
def sampleChallenge : HeaderValues :=
  [("Www-Authenticate", ["Bearer authorization=\"https://login/t\", resource=\"https://vault\""])]

/-- A server that answers 401 with a challenge to every request but those sent
with `POST`, to which it answers 200 (the token endpoint). -/
def rejectingEnv (t : tokenResponse) (now : Nat → Int) : Env where
  roundTrip := fun _ r =>
    if r.Method = "POST" then .ok ⟨200, "200 OK", [], "token"⟩
    else .ok ⟨401, "401 Unauthorized", sampleChallenge, ""⟩
  now := now
  decode := fun _ => .ok t
  urlError := fun _ => none
  queryEscape := fun x => x

/-- A server that answers every request with the given status. -/
def fixedEnv (code : Int) : Env where
  roundTrip := fun _ _ => .ok ⟨code, "", [], ""⟩
  now := fun _ => 0
  decode := fun _ => .error "no body"
  urlError := fun _ => none
  queryEscape := fun x => x

/-- A state with one header map, holding `Accept: application/json`. -/
def sampleState (storage : Option defaultTokenStorage) : State :=
  { client := { ClientID := "id", ClientSecret := "secret", Storage := storage },
    heap := { maps := [(∅ : HeaderMap).insert "Accept" 0], slices := [["application/json"]] },
    sent := 0, ticks := 0, trace := [] }

/-- A `GET` request whose header is the map of `sampleState`. -/
def sampleRequest (getBody : Option (Option String × Option Error)) : Request :=
  { Method := "GET", URL := "https://vault/secrets", Header := some 0, Body := none,
    GetBody := getBody }

/-- The values of `Authorization` on the dispatched requests of a record. -/
def authorizations (tr : List Event) : List (Option (List String)) :=
  tr.filterMap fun e =>
    match e with
    | .dispatch r _ => some (r.Header.lookup "Authorization")
    | _ => none

/-- A clock that reads 0 first and 2 s at every later reading. -/
def jumpingClock (k : Nat) : Int := if k = 0 then 0 else 2000000000


/-! ## Lemmas on the string functions -/

theorem dropWhile_append_all {p : Char → Bool} (u v : List Char) (h : ∀ c ∈ u, p c = true) :
    (u ++ v).dropWhile p = v.dropWhile p := by
  induction u with
  | nil => rfl
  | cons x u ih =>
    have hx : p x = true := h x (List.mem_cons_self _ _)
    simp only [List.cons_append, List.dropWhile_cons_of_pos hx]
    exact ih fun c hc => h c (List.mem_cons_of_mem _ hc)

theorem rdropWhile_append_all {p : Char → Bool} (l u : List Char) (h : ∀ c ∈ u, p c = true) :
    (l ++ u).rdropWhile p = l.rdropWhile p := by
  induction u using List.reverseRecOn with
  | nil => simp
  | append_singleton u x ih =>
    have hx : p x = true := h x (by simp)
    rw [← List.append_assoc, List.rdropWhile_concat_pos _ _ _ hx]
    exact ih fun c hc => h c (by simp [hc])

theorem rdropWhile_append_stop {p : Char → Bool} (l w : List Char) (x : Char) (hx : ¬ p x = true) :
    (l ++ x :: w).rdropWhile p = l ++ x :: w.rdropWhile p := by
  induction w using List.reverseRecOn with
  | nil =>
    have : l ++ [x] = l ++ [x] := rfl
    rw [List.rdropWhile_concat_neg _ _ _ hx]; simp
  | append_singleton w y ih =>
    have e1 : l ++ x :: (w ++ [y]) = (l ++ x :: w) ++ [y] := by simp
    by_cases hy : p y = true
    · rw [e1, List.rdropWhile_concat_pos _ _ _ hy, List.rdropWhile_concat_pos _ _ _ hy, ih]
    · rw [e1, List.rdropWhile_concat_neg _ _ _ hy, List.rdropWhile_concat_neg _ _ _ hy]; simp

theorem cut_append (sep : Char) (k w : List Char) (hk : sep ∉ k) :
    cut sep (k ++ sep :: w) = some (k, w) := by
  induction k with
  | nil => simp [cut]
  | cons x k ih =>
    have hx : x ≠ sep := fun e => hk (by simp [e])
    have hk2 : sep ∉ k := fun e => hk (List.mem_cons_of_mem _ e)
    simp [cut, hx, ih hk2]

theorem cut_eq_some {sep : Char} {s a b : List Char} (h : cut sep s = some (a, b)) :
    s = a ++ sep :: b := by
  induction s generalizing a with
  | nil => simp [cut] at h
  | cons x s ih =>
    unfold cut at h
    split at h
    · rename_i hx
      simp at h; obtain ⟨rfl, rfl⟩ := h; simp [hx]
    · split at h
      · simp at h
      · rename_i a1 b1 hc
        simp at h; obtain ⟨rfl, rfl⟩ := h
        simp [ih hc]

theorem cut_eq_none {sep : Char} {s : List Char} (h : sep ∉ s) : cut sep s = none := by
  induction s with
  | nil => rfl
  | cons x s ih =>
    have hx : x ≠ sep := fun e => h (by simp [e])
    simp [cut, hx, ih (fun e => h (List.mem_cons_of_mem _ e))]

theorem Split_of_not_mem (sep : Char) (a : List Char) (ha : sep ∉ a) : Split sep a = [a] := by
  induction a with
  | nil => rfl
  | cons x a ih =>
    have hx : x ≠ sep := fun e => ha (by simp [e])
    simp [Split, hx, ih (fun e => ha (List.mem_cons_of_mem _ e))]

theorem Split_append (sep : Char) (a rest : List Char) (ha : sep ∉ a) :
    Split sep (a ++ sep :: rest) = a :: Split sep rest := by
  induction a with
  | nil => simp [Split]
  | cons x a ih =>
    have hx : x ≠ sep := fun e => ha (by simp [e])
    simp [Split, hx, ih (fun e => ha (List.mem_cons_of_mem _ e))]

theorem Split_intercalate (sep : Char) (seg : List Char) (segs : List (List Char))
    (h : ∀ s ∈ seg :: segs, sep ∉ s) :
    Split sep (List.intercalate [sep] (seg :: segs)) = seg :: segs := by
  induction segs generalizing seg with
  | nil =>
    simpa [List.intercalate] using Split_of_not_mem sep seg (h seg (by simp))
  | cons s2 segs ih =>
    have e : List.intercalate [sep] (seg :: s2 :: segs)
        = seg ++ sep :: List.intercalate [sep] (s2 :: segs) := by
      simp [List.intercalate, List.intersperse]
    rw [e, Split_append sep seg _ (h seg (by simp)), ih s2 (fun s hs => h s (List.mem_cons_of_mem _ hs))]

theorem Split_parts (sep : Char) (s : List Char) :
    ∃ p ps, Split sep s = p :: ps ∧ p <+: s ∧ ∀ q ∈ ps, q <:+: s := by
  induction s with
  | nil => exact ⟨[], [], rfl, List.prefix_refl _, by simp⟩
  | cons x s ih =>
    obtain ⟨p, ps, hs, hp, hps⟩ := ih
    by_cases hx : x = sep
    · refine ⟨[], p :: ps, by simp [Split, hx, hs], List.nil_prefix, ?_⟩
      intro q hq
      rcases List.mem_cons.1 hq with rfl | hq
      · exact hp.isInfix.trans (List.infix_cons (List.infix_refl _))
      · exact (hps q hq).trans (List.infix_cons (List.infix_refl _))
    · refine ⟨x :: p, ps, by simp [Split, hx, hs], ?_, ?_⟩
      · obtain ⟨t, rfl⟩ := hp
        exact ⟨t, by simp⟩
      · intro q hq
        exact (hps q hq).trans (List.infix_cons (List.infix_refl _))

theorem Split_sub (sep : Char) (s : List Char) : ∀ sub ∈ Split sep s, sub <:+: s := by
  obtain ⟨p, ps, hs, hp, hps⟩ := Split_parts sep s
  intro sub h
  rw [hs] at h
  rcases List.mem_cons.1 h with rfl | h
  · exact hp.isInfix
  · exact hps sub h

theorem TrimSpace_sub (s : List Char) : TrimSpace s <:+: s :=
  (List.rdropWhile_prefix _ _).isInfix.trans (List.dropWhile_suffix _).isInfix

theorem TrimSpace_key (a : Nat) (k w : List Char) (hk : ∀ c ∈ k, isSpace c = false) :
    TrimSpace (List.replicate a ' ' ++ k ++ '=' :: w) = k ++ '=' :: w.rdropWhile isSpace := by
  have h1 : (List.replicate a ' ' ++ k ++ '=' :: w).dropWhile isSpace = k ++ '=' :: w := by
    rw [List.append_assoc, dropWhile_append_all]
    · cases k with
      | nil => exact List.dropWhile_cons_of_neg (by decide)
      | cons x k =>
        exact List.dropWhile_cons_of_neg (by simp [hk x (List.mem_cons_self _ _)])
    · intro c hc
      rw [List.eq_of_mem_replicate hc]; decide
  unfold TrimSpace
  rw [h1, rdropWhile_append_stop _ _ _ (by decide)]

theorem step_key (cfg : authConfig) (a : Nat) (k w : List Char)
    (hk : ∀ c ∈ k, isSpace c = false ∧ c ≠ '=' ∧ c ≠ ',') :
    getAuthConfig.step cfg (List.replicate a ' ' ++ k ++ '=' :: w) =
      if k = "authorization".data then
        { cfg with endpoint := String.mk (Trim (w.rdropWhile isSpace) '"') }
      else if k = "resource".data then
        { cfg with resource := String.mk (Trim (w.rdropWhile isSpace) '"') }
      else cfg := by
  have hc : cut '=' (k ++ '=' :: w.rdropWhile isSpace) = some (k, w.rdropWhile isSpace) :=
    cut_append _ _ _ (fun h => (hk _ h).2.1 rfl)
  simp only [getAuthConfig.step, TrimSpace_key a k w (fun c h => (hk c h).1), SplitN2, hc]

theorem Trim_self (v : List Char) (c : Char) (h : c ∉ v) : Trim v c = v := by
  unfold Trim
  have h1 : v.dropWhile (· == c) = v := by
    rw [List.dropWhile_eq_self_iff]
    intro hl
    have : v[0] ∈ v := List.getElem_mem hl
    simp; intro e; exact h (e ▸ this)
  rw [h1, List.rdropWhile_eq_self_iff]
  intro hl
  have : v.getLast hl ∈ v := List.getLast_mem hl
  simp; intro e; exact h (e ▸ this)

theorem Trim_quoted (v : List Char) (h : '"' ∉ v) : Trim ('"' :: v ++ ['"']) '"' = v := by
  cases v with
  | nil => decide
  | cons x v =>
    have hx : x ≠ '"' := fun e => h (by simp [e])
    have h1 : ('"' :: (x :: v) ++ ['"']).dropWhile (· == '"') = (x :: v) ++ ['"'] := by
      simp [List.dropWhile_cons, hx]
    have h2 := Trim_self (x :: v) '"' h
    unfold Trim at h2 ⊢
    rw [h1, List.rdropWhile_concat_pos _ _ _ (by simp)]
    have h3 : (x :: v).dropWhile (· == '"') = x :: v := by simp [List.dropWhile_cons, hx]
    rw [h3] at h2
    exact h2

theorem value_read (p : Param) (hc : p.clean) :
    Trim (((if p.quoted then '"' :: p.value.data ++ ['"'] else p.value.data) ++
      List.replicate p.post ' ').rdropWhile isSpace) '"' = p.value.data := by
  have hsp : ∀ c ∈ List.replicate p.post ' ', isSpace c = true := by
    intro c h; rw [List.eq_of_mem_replicate h]; decide
  rw [rdropWhile_append_all _ _ hsp]
  by_cases hq : p.quoted = true
  · simp only [hq, if_true]
    have e : '"' :: p.value.data ++ ['"'] = ('"' :: p.value.data) ++ ['"'] := rfl
    rw [e, List.rdropWhile_concat_neg _ _ _ (by decide)]
    exact Trim_quoted _ hc.1
  · have hq2 : p.quoted = false := by simpa using hq
    simp only [hq2]
    have : p.value.data.rdropWhile isSpace = p.value.data := by
      rw [List.rdropWhile_eq_self_iff]
      intro hl
      have := hc.2 hq2 (p.value.data.getLast hl) (by simp [List.getLast?_eq_getLast _ hl])
      simp [this]
    simp only [Bool.false_eq_true, if_false, this]
    exact Trim_self _ _ hc.1

theorem step_text (cfg : authConfig) (p : Param) (hw : p.wellFormed)
    (hc : p.key = "authorization" ∨ p.key = "resource" → p.clean) :
    getAuthConfig.step cfg p.text = p.apply cfg := by
  unfold Param.text Param.apply
  rw [step_key cfg _ _ _ hw.1]
  have hkey : ∀ s : String, p.key.data = s.data ↔ p.key = s := fun s =>
    ⟨fun h => String.ext h, fun h => by rw [h]⟩
  by_cases h1 : p.key = "authorization"
  · rw [if_pos ((hkey _).2 h1), if_pos h1, value_read p (hc (Or.inl h1))]
  · rw [if_neg (fun h => h1 ((hkey _).1 h)), if_neg h1]
    by_cases h2 : p.key = "resource"
    · rw [if_pos ((hkey _).2 h2), if_pos h2, value_read p (hc (Or.inr h2))]
    · rw [if_neg (fun h => h2 ((hkey _).1 h)), if_neg h2]

theorem foldl_step_text (cfg : authConfig) (ps : List Param) (hw : ∀ p ∈ ps, p.wellFormed)
    (hc : ∀ p ∈ ps, p.key = "authorization" ∨ p.key = "resource" → p.clean) :
    (ps.map Param.text).foldl getAuthConfig.step cfg = ps.foldl Param.apply cfg := by
  induction ps generalizing cfg with
  | nil => rfl
  | cons p ps ih =>
    simp only [List.map_cons, List.foldl_cons]
    rw [step_text cfg p (hw p (List.mem_cons_self _ _)) (hc p (List.mem_cons_self _ _))]
    exact ih _ (fun q hq => hw q (List.mem_cons_of_mem _ hq))
      (fun q hq => hc q (List.mem_cons_of_mem _ hq))

theorem foldl_apply_endpoint (cfg : authConfig) (ps : List Param) (e : String)
    (h : ∀ p ∈ ps, p.key = "authorization" → p.value = e) :
    (ps.foldl Param.apply cfg).endpoint =
      if ps.any (fun p => p.key = "authorization") then e else cfg.endpoint := by
  induction ps generalizing cfg with
  | nil => rfl
  | cons p ps ih =>
    simp only [List.foldl_cons]
    rw [ih _ (fun q hq => h q (List.mem_cons_of_mem _ hq))]
    by_cases hp : p.key = "authorization"
    · have := h p (List.mem_cons_self _ _) hp
      simp [Param.apply, hp, this]
    · by_cases hr : p.key = "resource"
      · simp [Param.apply, hp, hr]
      · simp [Param.apply, hp, hr]

theorem foldl_apply_resource (cfg : authConfig) (ps : List Param) (r : String)
    (h : ∀ p ∈ ps, p.key = "resource" → p.value = r) :
    (ps.foldl Param.apply cfg).resource =
      if ps.any (fun p => p.key = "resource") then r else cfg.resource := by
  induction ps generalizing cfg with
  | nil => rfl
  | cons p ps ih =>
    simp only [List.foldl_cons]
    rw [ih _ (fun q hq => h q (List.mem_cons_of_mem _ hq))]
    by_cases hp : p.key = "authorization"
    · have hr : p.key ≠ "resource" := by rw [hp]; decide
      simp [Param.apply, hp]
    · by_cases hr : p.key = "resource"
      · have := h p (List.mem_cons_self _ _) hr
        simp [Param.apply, hr, this]
      · simp [Param.apply, hp, hr]

theorem text_no_comma (p : Param) (hw : p.wellFormed) : ',' ∉ p.text := by
  unfold Param.text
  intro h
  simp only [List.mem_append, List.mem_cons] at h
  rcases h with (h | h) | h | h | h
  · exact absurd (List.eq_of_mem_replicate h) (by decide)
  · exact (hw.1 _ h).2.2 rfl
  · exact absurd h (by decide)
  · split at h
    · simp only [List.cons_append, List.mem_cons, List.mem_append, List.mem_singleton] at h
      rcases h with h | h | h
      · exact absurd h (by decide)
      · exact hw.2 h
      · exact absurd h (by decide)
    · exact hw.2 h
  · exact absurd (List.eq_of_mem_replicate h) (by decide)

theorem parse_challenge (ps : List Param) (hne : ps ≠ []) (hw : ∀ p ∈ ps, p.wellFormed)
    (hc : ∀ p ∈ ps, p.key = "authorization" ∨ p.key = "resource" → p.clean) :
    getAuthConfig.parse (challenge ps) =
      if (ps.foldl Param.apply ⟨"", ""⟩).endpoint = "" then .error "Empty endpoint URI"
      else if (ps.foldl Param.apply ⟨"", ""⟩).resource = "" then .error "Empty resource URI"
      else .ok (ps.foldl Param.apply ⟨"", ""⟩) := by
  obtain ⟨p, ps, rfl⟩ := List.exists_cons_of_ne_nil hne
  have h0 : challenge (p :: ps) ≠ "" := by
    intro h
    have := congrArg String.data h
    simp [challenge] at this
  have h1 : cut ' ' (challenge (p :: ps)).data
      = some ("Bearer".data, List.intercalate [','] ((p :: ps).map Param.text)) :=
    cut_append ' ' "Bearer".data _ (by decide)
  have h2 : Split ',' (List.intercalate [','] ((p :: ps).map Param.text))
      = (p :: ps).map Param.text := by
    rw [List.map_cons]
    apply Split_intercalate
    intro s hs
    rw [← List.map_cons] at hs
    obtain ⟨q, hq, rfl⟩ := List.mem_map.1 hs
    exact text_no_comma q (hw q hq)
  unfold getAuthConfig.parse
  rw [if_neg h0]
  simp only [SplitN2, h1, h2, ne_eq, not_true_eq_false, if_false, foldl_step_text _ _ hw hc]

theorem step_endpoint (cfg : authConfig) (sub : List Char)
    (h : ¬ "authorization=".data <:+: sub) :
    (getAuthConfig.step cfg sub).endpoint = cfg.endpoint := by
  unfold getAuthConfig.step SplitN2
  cases hc : cut '=' (TrimSpace sub) with
  | none => rfl
  | some ab =>
    obtain ⟨k, v⟩ := ab
    simp only
    by_cases hk : k = "authorization".data
    · exfalso
      apply h
      have e := cut_eq_some hc
      rw [hk] at e
      have hp : "authorization=".data <+: TrimSpace sub := ⟨v, by rw [e]; rfl⟩
      exact hp.isInfix.trans (TrimSpace_sub sub)
    · rw [if_neg hk]
      split <;> rfl

theorem step_resource (cfg : authConfig) (sub : List Char)
    (h : ¬ "resource=".data <:+: sub) :
    (getAuthConfig.step cfg sub).resource = cfg.resource := by
  unfold getAuthConfig.step SplitN2
  cases hc : cut '=' (TrimSpace sub) with
  | none => rfl
  | some ab =>
    obtain ⟨k, v⟩ := ab
    simp only
    by_cases hk : k = "resource".data
    · exfalso
      apply h
      have e := cut_eq_some hc
      rw [hk] at e
      have hp : "resource=".data <+: TrimSpace sub := ⟨v, by rw [e]; rfl⟩
      exact hp.isInfix.trans (TrimSpace_sub sub)
    · rw [if_neg hk]
      split <;> rfl

theorem foldl_step_endpoint (cfg : authConfig) (subs : List (List Char))
    (h : ∀ sub ∈ subs, ¬ "authorization=".data <:+: sub) :
    (subs.foldl getAuthConfig.step cfg).endpoint = cfg.endpoint := by
  induction subs generalizing cfg with
  | nil => rfl
  | cons s subs ih =>
    rw [List.foldl_cons, ih _ (fun q hq => h q (List.mem_cons_of_mem _ hq))]
    exact step_endpoint cfg s (h s (List.mem_cons_self _ _))

theorem foldl_step_resource (cfg : authConfig) (subs : List (List Char))
    (h : ∀ sub ∈ subs, ¬ "resource=".data <:+: sub) :
    (subs.foldl getAuthConfig.step cfg).resource = cfg.resource := by
  induction subs generalizing cfg with
  | nil => rfl
  | cons s subs ih =>
    rw [List.foldl_cons, ih _ (fun q hq => h q (List.mem_cons_of_mem _ hq))]
    exact step_resource cfg s (h s (List.mem_cons_self _ _))

theorem parse_ok_nonempty (authStr : String) (cfg : authConfig)
    (h : getAuthConfig.parse authStr = .ok cfg) : cfg.endpoint ≠ "" ∧ cfg.resource ≠ "" := by
  unfold getAuthConfig.parse at h
  split at h
  · cases h
  · split at h
    · split at h
      · cases h
      · simp only at h
        split at h
        · cases h
        · split at h
          · cases h
          · rename_i h1 h2
            injection h with h
            subst h
            exact ⟨h1, h2⟩
    · cases h

theorem parse_absent (authStr : String) (key : List Char)
    (hkey : key = "authorization=".data ∨ key = "resource=".data)
    (h : ¬ key <:+: authStr.data) : ∃ e, getAuthConfig.parse authStr = .error e := by
  unfold getAuthConfig.parse
  split
  · exact ⟨_, rfl⟩
  · split
    · rename_i s0 s1 hs
      split
      · exact ⟨_, rfl⟩
      · have hsuf : s1 <:+: authStr.data := by
          unfold SplitN2 at hs
          split at hs
          · simp at hs
          · rename_i a b hc
            simp only [List.cons.injEq, and_true] at hs
            obtain ⟨rfl, rfl⟩ := hs
            rw [cut_eq_some hc]
            exact ⟨a ++ [' '], [], by simp⟩
        have hsub : ∀ sub ∈ Split ',' s1, ¬ key <:+: sub := fun sub hm hi =>
          h (hi.trans ((Split_sub ',' s1 sub hm).trans hsuf))
        rcases hkey with rfl | rfl
        · simp only [foldl_step_endpoint _ _ hsub, if_true]
          exact ⟨_, rfl⟩
        · simp only [foldl_step_resource _ _ hsub, if_true]
          split <;> exact ⟨_, rfl⟩
    · exact ⟨_, rfl⟩

/-! ## The challenge parser: claims C4, C5, C6 -/

/-- C4: `getAuthConfig` either fails or returns a configuration whose endpoint
and resource are both non-empty. In particular it fails on every header in
which the text `authorization=` does not occur, on every header in which the
text `resource=` does not occur, and on every header `Bearer <parameters>` all
of whose `authorization` parameters, or all of whose `resource` parameters,
have an empty value, written with or without quotes. -/
theorem getAuthConfig_nonempty_or_error (res : Response) :
    (∀ cfg, getAuthConfig res = .ok cfg → cfg.endpoint ≠ "" ∧ cfg.resource ≠ "") ∧
    (¬ "authorization=".data <:+: (res.Header.Get authHeader).data →
      ∃ e, getAuthConfig res = .error e) ∧
    (¬ "resource=".data <:+: (res.Header.Get authHeader).data →
      ∃ e, getAuthConfig res = .error e) ∧
    (∀ ps : List Param, ps ≠ [] → res.Header.Get authHeader = challenge ps →
      (∀ p ∈ ps, p.wellFormed) →
      (∀ p ∈ ps, p.key = "authorization" ∨ p.key = "resource" → p.clean) →
      ((∀ p ∈ ps, p.key = "authorization" → p.value = "") ∨
        (∀ p ∈ ps, p.key = "resource" → p.value = "")) →
      ∃ e, getAuthConfig res = .error e) := by
  refine ⟨fun cfg h => parse_ok_nonempty _ cfg h, fun h => parse_absent _ _ (Or.inl rfl) h,
    fun h => parse_absent _ _ (Or.inr rfl) h, ?_⟩
  intro ps hne hres hw hc hempty
  unfold getAuthConfig
  rw [hres, parse_challenge ps hne hw hc]
  rcases hempty with h | h
  · have := foldl_apply_endpoint ⟨"", ""⟩ ps "" h
    simp only [ite_self] at this
    rw [if_pos this]
    exact ⟨_, rfl⟩
  · have := foldl_apply_resource ⟨"", ""⟩ ps "" h
    simp only [ite_self] at this
    rw [if_pos this]
    split <;> exact ⟨_, rfl⟩

/-- C4 at concrete headers: one without `authorization`, one without
`resource`, one with `authorization=""`, one with an unquoted empty resource. -/
theorem getAuthConfig_nonempty_or_error_witness :
    (∃ e, getAuthConfig ⟨401, "401 Unauthorized",
        [("Www-Authenticate", ["Bearer resource=\"https://vault.azure.net\""])], ""⟩
      = .error e) ∧
    (∃ e, getAuthConfig ⟨401, "401 Unauthorized",
        [("Www-Authenticate", ["Bearer authorization=\"https://login/t\""])], ""⟩
      = .error e) ∧
    (∃ e, getAuthConfig ⟨401, "401 Unauthorized",
        [("Www-Authenticate", ["Bearer authorization=\"\",resource=\"r\""])], ""⟩
      = .error e) ∧
    (∃ e, getAuthConfig ⟨401, "401 Unauthorized",
        [("Www-Authenticate", ["Bearer authorization=\"e\", resource="])], ""⟩
      = .error e) :=
  ⟨(getAuthConfig_nonempty_or_error _).2.1 (by decide),
   (getAuthConfig_nonempty_or_error _).2.2.1 (by decide),
   (getAuthConfig_nonempty_or_error _).2.2.2
     [⟨"authorization", "", true, 0, 0⟩, ⟨"resource", "r", true, 0, 0⟩]
     (by decide) (by decide) (by decide) (by decide) (Or.inl (by decide)),
   (getAuthConfig_nonempty_or_error _).2.2.2
     [⟨"authorization", "e", true, 0, 0⟩, ⟨"resource", "", false, 1, 0⟩]
     (by decide) (by decide) (by decide) (by decide) (Or.inr (by decide))⟩

/-- C5: for non-empty `e` and `r`, and a header `Bearer ` followed by a
comma-separated list of well-formed parameters (each possibly padded with
spaces) in which `authorization` occurs, always with the value `e`, and
`resource` occurs, always with the value `r`, these two values holding no
comma and no double quote and, when written without quotes, not ending in
white space: `getAuthConfig` succeeds with endpoint `e` and resource `r`,
whatever the order of the parameters and whatever other keys are present. -/
theorem getAuthConfig_recovers (res : Response) (e r : String) (ps : List Param)
    (hres : res.Header.Get authHeader = challenge ps)
    (he : e ≠ "") (hr : r ≠ "")
    (hw : ∀ p ∈ ps, p.wellFormed)
    (hc : ∀ p ∈ ps, p.key = "authorization" ∨ p.key = "resource" → p.clean)
    (hA : ∃ p ∈ ps, p.key = "authorization")
    (hAe : ∀ p ∈ ps, p.key = "authorization" → p.value = e)
    (hR : ∃ p ∈ ps, p.key = "resource")
    (hRr : ∀ p ∈ ps, p.key = "resource" → p.value = r) :
    getAuthConfig res = .ok { endpoint := e, resource := r } := by
  have hne : ps ≠ [] := by
    obtain ⟨p, hp, _⟩ := hA
    exact List.ne_nil_of_mem hp
  have h1 := foldl_apply_endpoint ⟨"", ""⟩ ps e hAe
  have h2 := foldl_apply_resource ⟨"", ""⟩ ps r hRr
  have a1 : ps.any (fun p => decide (p.key = "authorization")) = true := by
    obtain ⟨p, hp, hk⟩ := hA
    exact List.any_eq_true.2 ⟨p, hp, by simp [hk]⟩
  have a2 : ps.any (fun p => decide (p.key = "resource")) = true := by
    obtain ⟨p, hp, hk⟩ := hR
    exact List.any_eq_true.2 ⟨p, hp, by simp [hk]⟩
  rw [a1, if_pos rfl] at h1
  rw [a2, if_pos rfl] at h2
  unfold getAuthConfig
  rw [hres, parse_challenge ps hne hw hc, h1, h2, if_neg he, if_neg hr]
  congr 1
  cases hcfg : ps.foldl Param.apply ⟨"", ""⟩
  rw [hcfg] at h1 h2
  simp only at h1 h2
  rw [h1, h2]

/-- C5 at a concrete header: the resource first and unquoted, then an
unknown parameter, then the quoted endpoint. -/
theorem getAuthConfig_recovers_witness :
    getAuthConfig ⟨401, "401 Unauthorized",
        [("Www-Authenticate",
          ["Bearer resource=https://vault.azure.net,realm=\"x=y\", authorization=\"https://login/t\""])],
        ""⟩
      = .ok { endpoint := "https://login/t", resource := "https://vault.azure.net" } :=
  getAuthConfig_recovers _ "https://login/t" "https://vault.azure.net"
    [⟨"resource", "https://vault.azure.net", false, 0, 0⟩, ⟨"realm", "x=y", true, 0, 0⟩,
      ⟨"authorization", "https://login/t", true, 1, 0⟩]
    (by decide) (by decide) (by decide) (by decide) (by decide) (by decide) (by decide)
    (by decide) (by decide)

/-- C6, as stated, fails: a space before the `=` sign makes the parser miss
the key, and a space after it stays in the value together with the opening
quote. -/
theorem getAuthConfig_space_around_equals :
    getAuthConfig.parse "Bearer authorization=\"e\", resource=\"r\""
      = .ok { endpoint := "e", resource := "r" } ∧
    getAuthConfig.parse "Bearer authorization =\"e\", resource=\"r\""
      = .error "Empty endpoint URI" ∧
    getAuthConfig.parse "Bearer authorization= \"e\", resource=\"r\""
      = .ok { endpoint := " \"e", resource := "r" } := by
  decide

/-- C6, amended: for non-empty `e` and `r` without comma and double quote, the
header `Bearer authorization="e", resource="r"` written with any number of
spaces after the scheme, before the comma, after the comma and at the end is
parsed to endpoint `e` and resource `r`. -/
theorem getAuthConfig_spaces (e r : String) (a b c d : Nat)
    (he : e ≠ "") (hr : r ≠ "")
    (hec : ',' ∉ e.data) (heq : '"' ∉ e.data) (hrc : ',' ∉ r.data) (hrq : '"' ∉ r.data) :
    getAuthConfig.parse (spacedChallenge e r a b c d) = .ok { endpoint := e, resource := r } := by
  have hs : spacedChallenge e r a b c d =
      challenge [⟨"authorization", e, true, a, b⟩, ⟨"resource", r, true, c, d⟩] := by
    apply String.ext
    simp [spacedChallenge, challenge, Param.text, List.intercalate, List.replicate_succ]
  have hw : ∀ p ∈ [(⟨"authorization", e, true, a, b⟩ : Param), ⟨"resource", r, true, c, d⟩],
      p.wellFormed := by
    intro p hp
    simp only [List.mem_cons, List.mem_singleton, List.not_mem_nil, or_false] at hp
    rcases hp with rfl | rfl
    · exact ⟨(by decide : ∀ c ∈ "authorization".data, isSpace c = false ∧ c ≠ '=' ∧ c ≠ ','), hec⟩
    · exact ⟨(by decide : ∀ c ∈ "resource".data, isSpace c = false ∧ c ≠ '=' ∧ c ≠ ','), hrc⟩
  have hc : ∀ p ∈ [(⟨"authorization", e, true, a, b⟩ : Param), ⟨"resource", r, true, c, d⟩],
      p.key = "authorization" ∨ p.key = "resource" → p.clean := by
    intro p hp _
    simp only [List.mem_cons, List.mem_singleton, List.not_mem_nil, or_false] at hp
    rcases hp with rfl | rfl
    · exact ⟨heq, by simp⟩
    · exact ⟨hrq, by simp⟩
  rw [hs, parse_challenge _ (by simp) hw hc]
  simp [Param.apply, he, hr]

/-- C6, amended, at a concrete header with spaces in all four places. -/
theorem getAuthConfig_spaces_witness :
    getAuthConfig.parse (spacedChallenge "https://login/t" "https://vault" 2 1 3 1)
      = .ok { endpoint := "https://login/t", resource := "https://vault" } :=
  getAuthConfig_spaces "https://login/t" "https://vault" 2 1 3 1
    (by decide) (by decide) (by decide) (by decide) (by decide) (by decide)

/-! ## Lemmas on the heap -/

theorem within_refl (h : Heap) : h.within h := ⟨List.prefix_refl _, List.prefix_refl _⟩

theorem within_trans {a b c : Heap} (h1 : a.within b) (h2 : b.within c) : a.within c :=
  ⟨h1.1.trans h2.1, h1.2.trans h2.2⟩

theorem newSlice_within (h : Heap) (v : List String) : h.within (h.newSlice v).1 :=
  ⟨List.prefix_refl _, List.prefix_append _ _⟩

theorem newMap_within (h : Heap) : h.within h.newMap.1 :=
  ⟨List.prefix_append _ _, List.prefix_refl _⟩

theorem prefix_set {α : Type} (l l1 : List α) (m : Nat) (x : α) (hp : l <+: l1)
    (hm : l.length ≤ m) : l <+: l1.set m x := by
  obtain ⟨t, rfl⟩ := hp
  rw [List.set_append, if_neg (by omega)]
  exact List.prefix_append _ _

theorem assign_within {base h : Heap} (m : Nat) (k : String) (v : Nat)
    (hb : base.within h) (hm : base.maps.length ≤ m) : base.within (h.assign m k v) :=
  ⟨prefix_set _ _ _ _ hb.1 hm, hb.2⟩

theorem Set_within {base h : Heap} (m : Nat) (key value : String)
    (hb : base.within h) (hm : base.maps.length ≤ m) :
    base.within (Header.Set h m key value) :=
  assign_within m _ _ (within_trans hb (newSlice_within h _)) hm

theorem Add_within {base h : Heap} (m : Nat) (key value : String)
    (hb : base.within h) (hm : base.maps.length ≤ m) :
    base.within (Header.Add h m key value) :=
  assign_within m _ _ (within_trans hb (newSlice_within h _)) hm

theorem prefix_getD {α : Type} {l l1 : List α} (hp : l <+: l1) (a : Nat) (d : α)
    (ha : a < l.length) : l1.getD a d = l.getD a d := by
  obtain ⟨t, rfl⟩ := hp
  exact List.getD_append _ _ _ _ ha

theorem slice_of_within {base h : Heap} (hb : base.within h) (a : Nat)
    (ha : a < base.slices.length) : h.slice a = base.slice a :=
  prefix_getD hb.2 a [] ha

theorem map_of_within {base h : Heap} (hb : base.within h) (a : Nat)
    (ha : a < base.maps.length) : h.maps.getD a ∅ = base.maps.getD a ∅ :=
  prefix_getD hb.1 a ∅ ha

theorem header_of_within {base h : Heap} (hb : base.within h) (m : Option Nat)
    (hm : base.holds m) : h.header m = base.header m := by
  cases m with
  | none => rfl
  | some a =>
    obtain ⟨ha, hs⟩ := hm
    unfold Heap.header Heap.map
    simp only [map_of_within hb a ha]
    apply List.map_congr_left
    intro kv hkv
    rw [slice_of_within hb _ (hs kv hkv)]

theorem holds_of_within {base h : Heap} (hb : base.within h) (m : Option Nat)
    (hm : base.holds m) : h.holds m := by
  cases m with
  | none => trivial
  | some a =>
    obtain ⟨ha, hs⟩ := hm
    refine ⟨lt_of_lt_of_le ha hb.1.length_le, ?_⟩
    rw [map_of_within hb a ha]
    exact fun kv hkv => lt_of_lt_of_le (hs kv hkv) hb.2.length_le

theorem lookup_header (h : Heap) (m : Option Nat) (k : String) :
    (h.header m).lookup k = h.values m k := by
  unfold Heap.header Heap.values AList.lookup
  induction (h.map m).entries with
  | nil => rfl
  | cons kv es ih =>
    by_cases hk : k = kv.1
    · subst hk
      obtain ⟨k1, a⟩ := kv
      simp [List.lookup_cons, List.dlookup_cons_eq]
    · have hb : (k == kv.1) = false := by simpa using hk
      rw [List.map_cons, List.lookup_cons, hb, List.dlookup_cons_ne _ _ hk]
      exact ih

theorem assign_map (h : Heap) (m : Nat) (k : String) (v : Nat) (hm : m < h.maps.length) :
    (h.assign m k v).maps.getD m ∅ = (h.maps.getD m ∅).insert k v := by
  unfold Heap.assign
  simp [List.getD_eq_getElem?_getD, List.getElem?_set, hm]

theorem values_assign (h : Heap) (m : Nat) (k : String) (v : Nat) (k1 : String)
    (hm : m < h.maps.length) :
    (h.assign m k v).values (some m) k1 =
      if k1 = k then some (h.slice v) else h.values (some m) k1 := by
  show Option.map (h.assign m k v).slice (AList.lookup k1 ((h.assign m k v).maps.getD m ∅)) = _
  rw [assign_map _ _ _ _ hm]
  by_cases hk : k1 = k
  · subst hk
    rw [AList.lookup_insert, if_pos rfl]
    rfl
  · rw [AList.lookup_insert_ne hk, if_neg hk]
    rfl

theorem values_newSlice (h : Heap) (m : Nat) (x : List String) (k : String)
    (hs : ∀ k a, (h.maps.getD m ∅).lookup k = some a → a < h.slices.length) :
    (h.newSlice x).1.values (some m) k = h.values (some m) k := by
  show Option.map (h.newSlice x).1.slice (AList.lookup k (h.maps.getD m ∅))
    = Option.map h.slice (AList.lookup k (h.maps.getD m ∅))
  cases hl : AList.lookup k (h.maps.getD m ∅) with
  | none => rfl
  | some a =>
    show some ((h.newSlice x).1.slice a) = some (h.slice a)
    rw [slice_of_within (newSlice_within h x) a (hs k a hl)]

theorem slice_newSlice (h : Heap) (x : List String) :
    (h.newSlice x).1.slice (h.newSlice x).2 = x := by
  show (h.slices ++ [x]).getD h.slices.length [] = x
  rw [List.getD_append_right _ _ _ _ (le_refl _)]
  simp

theorem values_Set (h : Heap) (m : Nat) (key value : String) (k : String)
    (hm : m < h.maps.length)
    (hs : ∀ k a, (h.maps.getD m ∅).lookup k = some a → a < h.slices.length) :
    (Header.Set h m key value).values (some m) k =
      if k = CanonicalMIMEHeaderKey key then some [value] else h.values (some m) k := by
  unfold Header.Set
  have hm1 : m < (h.newSlice [value]).1.maps.length := hm
  rw [values_assign _ _ _ _ _ hm1, slice_newSlice, values_newSlice _ _ _ _ hs]

theorem entry_facts (base hp : Heap) (m : Nat) (kv : (_ : String) × Nat)
    (hb : base.within hp) (hm : m < hp.maps.length) (hbm : base.maps.length ≤ m)
    (hkv : kv.2 < base.slices.length)
    (hs : ∀ k a, (hp.maps.getD m ∅).lookup k = some a →
      base.slices.length ≤ a ∧ a < hp.slices.length) :
    base.within (copyRequest.entry m hp kv) ∧
    (copyRequest.entry m hp kv).maps.length = hp.maps.length ∧
    (∀ k a, ((copyRequest.entry m hp kv).maps.getD m ∅).lookup k = some a →
      base.slices.length ≤ a ∧ a < (copyRequest.entry m hp kv).slices.length) ∧
    (∀ k, (copyRequest.entry m hp kv).values (some m) k =
      if k = kv.1 then some (base.slice kv.2) else hp.values (some m) k) := by
  have hm1 : m < (hp.newSlice (hp.slice kv.2)).1.maps.length := hm
  have hlen : (copyRequest.entry m hp kv).slices.length = hp.slices.length + 1 := by
    simp [copyRequest.entry, Heap.assign, Heap.newSlice]
  refine ⟨assign_within m _ _ (within_trans hb (newSlice_within hp _)) hbm, ?_, ?_, ?_⟩
  · simp [copyRequest.entry, Heap.assign, Heap.newSlice]
  · intro k a hl
    unfold copyRequest.entry at hl
    rw [assign_map _ _ _ _ hm1] at hl
    rw [hlen]
    by_cases hk : k = kv.1
    · subst hk
      rw [AList.lookup_insert] at hl
      injection hl with hl
      subst hl
      exact ⟨hb.2.length_le, Nat.lt_succ_self _⟩
    · rw [AList.lookup_insert_ne hk] at hl
      have := hs k a hl
      exact ⟨this.1, Nat.lt_succ_of_lt this.2⟩
  · intro k
    unfold copyRequest.entry
    rw [values_assign _ _ _ _ _ hm1, slice_newSlice,
      values_newSlice _ _ _ _ (fun k a h => (hs k a h).2), slice_of_within hb _ hkv]

theorem copy_fold (base : Heap) (m : Nat) (es : List ((_ : String) × Nat))
    (hnd : es.NodupKeys) (hes : ∀ kv ∈ es, kv.2 < base.slices.length) (hbm : base.maps.length ≤ m) :
    ∀ hp : Heap, base.within hp → m < hp.maps.length →
      (∀ k a, (hp.maps.getD m ∅).lookup k = some a →
        base.slices.length ≤ a ∧ a < hp.slices.length) →
      base.within (es.foldl (copyRequest.entry m) hp) ∧
      (es.foldl (copyRequest.entry m) hp).maps.length = hp.maps.length ∧
      (∀ k a, ((es.foldl (copyRequest.entry m) hp).maps.getD m ∅).lookup k = some a →
        base.slices.length ≤ a ∧ a < (es.foldl (copyRequest.entry m) hp).slices.length) ∧
      (∀ k, (es.foldl (copyRequest.entry m) hp).values (some m) k =
        match es.dlookup k with
        | some a => some (base.slice a)
        | none => hp.values (some m) k) := by
  induction es with
  | nil =>
    intro hp hb hm hs
    exact ⟨hb, rfl, hs, fun k => rfl⟩
  | cons kv es ih =>
    intro hp hb hm hs
    have hnd2 := List.nodupKeys_cons.1 hnd
    obtain ⟨f1, f2, f3, f4⟩ :=
      entry_facts base hp m kv hb hm hbm (hes kv (List.mem_cons_self _ _)) hs
    obtain ⟨g1, g2, g3, g4⟩ :=
      ih hnd2.2 (fun q hq => hes q (List.mem_cons_of_mem _ hq)) _ f1 (by rw [f2]; exact hm) f3
    rw [List.foldl_cons]
    refine ⟨g1, by rw [g2, f2], g3, ?_⟩
    intro k
    rw [g4 k, f4 k]
    by_cases hk : k = kv.1
    · subst hk
      have : List.dlookup kv.1 es = none := List.dlookup_eq_none.2 hnd2.1
      obtain ⟨k1, a1⟩ := kv
      rw [this, List.dlookup_cons_eq]
      simp
    · rw [List.dlookup_cons_ne _ _ hk, if_neg hk]

theorem copyRequest_facts (h : Heap) (src : Request) (hh : h.holds src.Header) :
    h.within (copyRequest h src).1 ∧
    (copyRequest h src).2.Header = some h.maps.length ∧
    h.maps.length < (copyRequest h src).1.maps.length ∧
    (∀ k a, ((copyRequest h src).1.maps.getD h.maps.length ∅).lookup k = some a →
      h.slices.length ≤ a ∧ a < (copyRequest h src).1.slices.length) ∧
    (∀ k, (copyRequest h src).1.values (some h.maps.length) k = h.values src.Header k) := by
  have hes : ∀ kv ∈ (h.map src.Header).entries, kv.2 < h.slices.length := by
    cases hsrc : src.Header with
    | none => intro kv hkv; simp [Heap.map] at hkv
    | some a =>
      rw [hsrc] at hh
      exact hh.2
  have hempty : h.newMap.1.maps.getD h.maps.length ∅ = ∅ := by
    show (h.maps ++ [∅]).getD h.maps.length ∅ = ∅
    rw [List.getD_append_right _ _ _ _ (le_refl _)]
    simp
  obtain ⟨g1, g2, g3, g4⟩ := copy_fold h h.maps.length (h.map src.Header).entries
    (h.map src.Header).nodupKeys hes (le_refl _) h.newMap.1 (newMap_within h)
    (by simp [Heap.newMap])
    (by intro k a hl; rw [hempty, AList.lookup_empty] at hl; cases hl)
  refine ⟨g1, rfl, ?_, g3, ?_⟩
  · show h.maps.length < (List.foldl (copyRequest.entry h.maps.length) h.newMap.1 _).maps.length
    rw [g2]; simp [Heap.newMap]
  · intro k
    show (List.foldl (copyRequest.entry h.maps.length) h.newMap.1 _).values _ k = _
    rw [g4 k]
    have e0 : h.newMap.1.values (some h.maps.length) k = none := by
      show Option.map _ (AList.lookup k (h.newMap.1.maps.getD h.maps.length ∅)) = none
      rw [hempty, AList.lookup_empty]; rfl
    rw [e0]
    show _ = Option.map h.slice (List.dlookup k (h.map src.Header).entries)
    cases List.dlookup k (h.map src.Header).entries <;> rfl

theorem copyRequest_within (h : Heap) (src : Request) : h.within (copyRequest h src).1 := by
  have key : ∀ (es : List ((_ : String) × Nat)) (hp : Heap), h.within hp →
      h.within (es.foldl (copyRequest.entry h.maps.length) hp) := by
    intro es
    induction es with
    | nil => intro hp hb; exact hb
    | cons kv es ih =>
      intro hp hb
      rw [List.foldl_cons]
      exact ih _ (assign_within _ _ _ (within_trans hb (newSlice_within hp _)) (le_refl _))
  exact key _ _ (newMap_within h)

/-! ## Lemmas on the client -/

theorem storage_cached (c : Client) : c.storage.2.cached = c.cached := by
  obtain ⟨id, sec, st⟩ := c
  cases st <;> rfl

theorem prepare_sent (env : Env) (req : Request) (s : State) :
    (Do.prepare env req s).2.sent = s.sent := by
  unfold Do.prepare; simp only; split <;> rfl

theorem prepare_trace (env : Env) (req : Request) (s : State) :
    (Do.prepare env req s).2.trace = s.trace := by
  unfold Do.prepare; simp only; split <;> rfl

theorem prepare_client (env : Env) (req : Request) (s : State) :
    (Do.prepare env req s).2.client = s.client.storage.2 := by
  unfold Do.prepare; simp only; split <;> rfl

theorem SetHeader_within {base h : Heap} (t : Token) (r : Request) (hb : base.within h)
    (hr : ∀ m, r.Header = some m → base.maps.length ≤ m) : base.within (t.SetHeader h r) := by
  unfold Token.SetHeader
  split
  · rename_i d m hm
    exact Set_within m _ _ hb (hr m hm)
  · exact hb

theorem prepare_within (env : Env) (req : Request) (s : State) :
    s.heap.within (Do.prepare env req s).2.heap := by
  unfold Do.prepare; simp only; split
  · exact SetHeader_within _ _ (copyRequest_within _ _)
      (fun m hm => by
        have : (copyRequest s.heap req).2.Header = some s.heap.maps.length := rfl
        rw [this] at hm; injection hm with hm; omega)
  · exact within_refl _

theorem prepare_invalid (env : Env) (req : Request) (s : State)
    (h : (s.client.cached.IsValid env s.ticks).1 = false) :
    Do.prepare env req s =
      (req, { s with client := s.client.storage.2,
                     ticks := (s.client.cached.IsValid env s.ticks).2 }) := by
  unfold Do.prepare; simp only [h]; rfl

theorem header_Add_fresh (h : Heap) (key value : String) :
    (Header.Add h.newMap.1 h.newMap.2 key value).header (some h.newMap.2)
      = [(CanonicalMIMEHeaderKey key, [value])] := by
  have hempty : h.newMap.1.maps.getD h.maps.length ∅ = ∅ := by
    show (h.maps ++ [∅]).getD h.maps.length ∅ = ∅
    rw [List.getD_append_right _ _ _ _ (le_refl _)]
    simp
  have hl : AList.lookup (CanonicalMIMEHeaderKey key) (h.newMap.1.map (some h.newMap.2)) = none := by
    show AList.lookup _ (h.newMap.1.maps.getD h.maps.length ∅) = none
    rw [hempty]; rfl
  have hm : ∀ x, h.maps.length < (h.newMap.1.newSlice x).1.maps.length := by
    intro x; simp [Heap.newMap, Heap.newSlice]
  have hadd : Header.Add h.newMap.1 h.newMap.2 key value
      = (h.newMap.1.newSlice [value]).1.assign h.maps.length (CanonicalMIMEHeaderKey key)
          (h.newMap.1.newSlice [value]).2 := by
    unfold Header.Add
    simp only [hl, List.nil_append]
    rfl
  rw [hadd]
  show List.map _ (AList.entries ((Heap.assign _ h.maps.length _ _).maps.getD h.maps.length ∅)) = _
  rw [assign_map _ _ _ _ (hm _)]
  have hempty2 : (h.newMap.1.newSlice [value]).1.maps.getD h.maps.length ∅ = ∅ := hempty
  rw [hempty2]
  show [(CanonicalMIMEHeaderKey key, (h.newMap.1.newSlice [value]).1.slice
      (h.newMap.1.newSlice [value]).2)] = _
  rw [slice_newSlice]

theorem tokenOutbound_eq (env : Env) (s : State) (auth : authConfig) :
    ({ Method := "POST", URL := auth.endpoint ++ tokenPath ++ "?api-version=" ++ oauthAPIVersion,
       Header := some s.heap.newMap.2, Body := some (encodeForm env s.client auth),
       GetBody := some (some (encodeForm env s.client auth), none) } : Request).outbound
      (Header.Add s.heap.newMap.1 s.heap.newMap.2 "Content-Type"
        "application/x-www-form-urlencoded")
    = tokenOutbound env s.client auth := by
  unfold Request.outbound tokenOutbound
  simp only [header_Add_fresh]
  rfl

theorem authenticate_run (env : Env) (s : State) (auth : authConfig) (tres : Response)
    (hurl : env.urlError (auth.endpoint ++ tokenPath ++ "?api-version=" ++ oauthAPIVersion) = none)
    (hans : env.roundTrip s.sent (tokenOutbound env s.client auth) = .ok tres)
    (h200 : tres.StatusCode = 200) :
    Client.authenticate env s auth =
      ((newBearerToken env s.ticks tres).1,
       { client := s.client,
         heap := Header.Add s.heap.newMap.1 s.heap.newMap.2 "Content-Type"
           "application/x-www-form-urlencoded",
         sent := s.sent + 1,
         ticks := (newBearerToken env s.ticks tres).2,
         trace := s.trace ++ [Event.authenticate auth] ++
           [Event.tokenDispatch (tokenOutbound env s.client auth) (.ok tres)] }) := by
  have ho := tokenOutbound_eq env s auth
  unfold Client.authenticate
  simp only [hurl, ho, hans, h200, ne_eq, not_true_eq_false, if_false]

theorem authenticate_facts (env : Env) (s : State) (auth : authConfig) :
    (Client.authenticate env s auth).2.client = s.client ∧
    s.heap.within (Client.authenticate env s auth).2.heap ∧
    ∃ rest, (Client.authenticate env s auth).2.trace = s.trace ++ Event.authenticate auth :: rest ∧
      rest.countP Event.isDispatch = 0 ∧ rest.countP Event.isAuthenticate = 0 ∧
      rest.countP Event.isStore = 0 := by
  have hw : s.heap.within (Header.Add s.heap.newMap.1 s.heap.newMap.2 "Content-Type"
      "application/x-www-form-urlencoded") :=
    Add_within _ _ _ (newMap_within _) (le_refl _)
  unfold Client.authenticate
  simp only
  split
  · exact ⟨rfl, within_refl _, [], rfl, rfl, rfl, rfl⟩
  · split
    · exact ⟨rfl, hw, [Event.tokenDispatch _ _], List.append_assoc _ _ _, rfl, rfl, rfl⟩
    · split
      · exact ⟨rfl, hw, [Event.tokenDispatch _ _], List.append_assoc _ _ _, rfl, rfl, rfl⟩
      · exact ⟨rfl, hw, [Event.tokenDispatch _ _], List.append_assoc _ _ _, rfl, rfl, rfl⟩

theorem iter_retried (env : Env) (attempt : Nat) (req : Request) (s : State) (ha : 0 < attempt) :
    Do.iter env attempt req s =
      .ret (env.roundTrip s.sent (Do.dispatched env req s)) req
        { (Do.prepare env req s).2 with
          sent := s.sent + 1,
          trace := s.trace ++ [Event.dispatch (Do.dispatched env req s)
            (env.roundTrip s.sent (Do.dispatched env req s))] } := by
  unfold Do.iter
  simp only [prepare_sent, prepare_trace]
  cases env.roundTrip s.sent (Do.dispatched env req s) with
  | error e => rfl
  | ok res => simp [ha]

theorem iter_facts (env : Env) (attempt : Nat) (req : Request) (s : State) :
    (Do.iter env attempt req s).req.Header = req.Header ∧
    s.heap.within (Do.iter env attempt req s).state.heap ∧
    ∃ rest, (Do.iter env attempt req s).state.trace =
        s.trace ++ Event.dispatch (Do.dispatched env req s)
          (env.roundTrip s.sent (Do.dispatched env req s)) :: rest ∧
      rest.countP Event.isDispatch = 0 ∧ rest.countP Event.isAuthenticate ≤ 1 := by
  have hp := prepare_within env req s
  unfold Do.iter
  simp only [prepare_sent, prepare_trace]
  split
  · exact ⟨rfl, hp, [], by simp [Step.state], rfl, by simp⟩
  · split
    · exact ⟨rfl, hp, [], by simp [Step.state], rfl, by simp⟩
    · split
      · exact ⟨rfl, hp, [Event.getAuthConfig _], List.append_assoc _ _ _, rfl, by simp [Event.isAuthenticate]⟩
      · rename_i res hres hst x ac hac
        obtain ⟨f1, f2, rest, f3, f4, f5, f6⟩ := authenticate_facts env
          { (Do.prepare env req s).2 with
            sent := s.sent + 1,
            trace := s.trace ++ [Event.dispatch (Do.dispatched env req s)
              (env.roundTrip s.sent (Do.dispatched env req s))] ++ [Event.getAuthConfig res] } ac
        have hw := within_trans hp f2
        split
        · refine ⟨rfl, hw, Event.getAuthConfig res :: Event.authenticate ac :: rest, ?_, ?_, ?_⟩
          · simp only [Step.state]; rw [f3]; simp
          · simp [List.countP_cons, Event.isDispatch, f4]
          · simp [List.countP_cons, Event.isAuthenticate, f5]
        · rename_i y tok htok
          split
          · refine ⟨rfl, hw,
              Event.getAuthConfig res :: Event.authenticate ac :: (rest ++ [Event.Store tok]),
              ?_, ?_, ?_⟩
            · simp only [Step.state]; rw [f3]; simp
            · simp [List.countP_cons, Event.isDispatch, f4, List.countP_append]
            · simp [List.countP_cons, Event.isAuthenticate, f5, List.countP_append]
          · refine ⟨rfl, hw,
              Event.getAuthConfig res :: Event.authenticate ac :: (rest ++ [Event.Store tok]),
              ?_, ?_, ?_⟩
            · simp only [Step.state]; rw [f3]; simp
            · simp [List.countP_cons, Event.isDispatch, f4, List.countP_append]
            · simp [List.countP_cons, Event.isAuthenticate, f5, List.countP_append]
          · refine ⟨rfl, hw,
              Event.getAuthConfig res :: Event.authenticate ac :: (rest ++ [Event.Store tok]),
              ?_, ?_, ?_⟩
            · simp only [Step.state]; rw [f3]; simp
            · simp [List.countP_cons, Event.isDispatch, f4, List.countP_append]
            · simp [List.countP_cons, Event.isAuthenticate, f5, List.countP_append]

theorem loop_retried (env : Env) (n : Nat) (req : Request) (s : State) :
    Do.loop env (n + 1) 1 req s =
      some { result := env.roundTrip s.sent (Do.dispatched env req s), req := req,
             state := { (Do.prepare env req s).2 with
               sent := s.sent + 1,
               trace := s.trace ++ [Event.dispatch (Do.dispatched env req s)
                 (env.roundTrip s.sent (Do.dispatched env req s))] } } := by
  unfold Do.loop
  rw [iter_retried env 1 req s (by decide)]

theorem loop_frame (env : Env) (fuel attempt : Nat) (req : Request) (s : State) (o : Outcome)
    (h : Do.loop env fuel attempt req s = some o) :
    o.req.Header = req.Header ∧ s.heap.within o.state.heap := by
  induction fuel generalizing attempt req s with
  | zero => simp [Do.loop] at h
  | succ n ih =>
    obtain ⟨f1, f2, _⟩ := iter_facts env attempt req s
    unfold Do.loop at h
    cases hi : Do.iter env attempt req s with
    | ret out r1 s1 =>
      rw [hi] at h f1 f2
      simp only [Option.some.injEq] at h
      subst h
      exact ⟨f1, f2⟩
    | next r1 s1 =>
      rw [hi] at h f1 f2
      obtain ⟨g1, g2⟩ := ih _ _ _ h
      exact ⟨g1.trans f1, within_trans f2 g2⟩

theorem Do_returns (env : Env) (fuel : Nat) (req : Request) (s : State) (hfuel : 2 ≤ fuel) :
    ∃ o, Client.Do env fuel req s = some o := by
  obtain ⟨n, rfl⟩ : ∃ n, fuel = n + 2 := ⟨fuel - 2, by omega⟩
  unfold Client.Do Do.loop
  cases Do.iter env 0 req s with
  | ret out r1 s1 => exact ⟨_, rfl⟩
  | next r1 s1 => exact ⟨_, loop_retried env n r1 s1⟩

theorem dispatched_invalid (env : Env) (req : Request) (s : State)
    (h : (s.client.cached.IsValid env s.ticks).1 = false) :
    Do.dispatched env req s = req.outbound s.heap := by
  unfold Do.dispatched
  rw [prepare_invalid env req s h]

theorem dispatched_valid (env : Env) (req : Request) (s : State) (d : defaultToken)
    (hc : s.client.cached = Token.bearer d) (hv : env.now s.ticks < d.expiresAt)
    (hh : s.heap.holds req.Header) :
    (Do.dispatched env req s).Method = req.Method ∧
    (Do.dispatched env req s).URL = req.URL ∧
    (Do.dispatched env req s).Body = req.Body ∧
    ∀ k, (Do.dispatched env req s).Header.lookup k =
      if k = "Authorization" then some ["Bearer " ++ d.token]
      else (s.heap.header req.Header).lookup k := by
  have hval : (s.client.cached.IsValid env s.ticks).1 = true := by
    rw [hc]; simp [Token.IsValid, hv]
  obtain ⟨c1, c2, c3, c4, c5⟩ := copyRequest_facts s.heap req hh
  have hk : CanonicalMIMEHeaderKey "Authorization" = "Authorization" := by decide
  have hprep : Do.prepare env req s =
      ((copyRequest s.heap req).2,
       { s with client := s.client.storage.2, ticks := (s.client.cached.IsValid env s.ticks).2,
                heap := Header.Set (copyRequest s.heap req).1 s.heap.maps.length "Authorization"
                  ("Bearer " ++ d.token) }) := by
    unfold Do.prepare
    simp only [hval, if_true]
    rw [hc]
    rfl
  unfold Do.dispatched
  rw [hprep]
  refine ⟨rfl, rfl, rfl, ?_⟩
  intro k
  show List.lookup k ((Header.Set (copyRequest s.heap req).1 s.heap.maps.length "Authorization"
    ("Bearer " ++ d.token)).header (some s.heap.maps.length)) = _
  rw [lookup_header, values_Set _ _ _ _ _ c3 (fun k a h => (c4 k a h).2), hk, c5 k, lookup_header]

theorem tokenOutbound_storage (env : Env) (c : Client) (auth : authConfig) :
    tokenOutbound env c.storage.2 auth = tokenOutbound env c auth := by
  obtain ⟨id, sec, st⟩ := c
  cases st <;> rfl

theorem countP_zero_filter (p : Event → Bool) (l : List Event) (h : l.countP p = 0) :
    l.filter p = [] := by
  rw [List.filter_eq_nil_iff]
  intro a ha hp
  have := List.countP_pos_iff.2 ⟨a, ha, hp⟩
  omega

theorem storage_Store (c : Client) (t : Token) :
    ({ c.storage.2.storage.2 with Storage := some (c.storage.2.storage.1.Store t) } : Client)
      = { c.storage.2 with Storage := some { token := some t } } := by
  obtain ⟨id, sec, st⟩ := c
  cases st <;> rfl

theorem iter_challenged (env : Env) (req : Request) (s : State) (res1 tres : Response)
    (ac : authConfig)
    (h1 : env.roundTrip s.sent (Do.dispatched env req s) = .ok res1)
    (h401 : res1.StatusCode = 401) (hac : getAuthConfig res1 = .ok ac)
    (hurl : env.urlError (ac.endpoint ++ tokenPath ++ "?api-version=" ++ oauthAPIVersion) = none)
    (htok : env.roundTrip (s.sent + 1) (tokenOutbound env s.client ac) = .ok tres)
    (h200 : tres.StatusCode = 200) :
    Do.iter env 0 req s =
      match (newBearerToken env (Do.prepare env req s).2.ticks tres).1 with
      | .error e => .ret (.error e) req
          { client := s.client.storage.2,
            heap := Header.Add (Do.prepare env req s).2.heap.newMap.1
              (Do.prepare env req s).2.heap.newMap.2 "Content-Type"
              "application/x-www-form-urlencoded",
            sent := s.sent + 1 + 1,
            ticks := (newBearerToken env (Do.prepare env req s).2.ticks tres).2,
            trace := s.trace ++ [Event.dispatch (Do.dispatched env req s) (.ok res1)] ++
              [Event.getAuthConfig res1] ++ [Event.authenticate ac] ++
              [Event.tokenDispatch (tokenOutbound env s.client ac) (.ok tres)] }
      | .ok tok =>
        match req.GetBody with
        | none => .next req
          { client := { s.client.storage.2 with Storage := some { token := some tok } },
            heap := Header.Add (Do.prepare env req s).2.heap.newMap.1
              (Do.prepare env req s).2.heap.newMap.2 "Content-Type"
              "application/x-www-form-urlencoded",
            sent := s.sent + 1 + 1,
            ticks := (newBearerToken env (Do.prepare env req s).2.ticks tres).2,
            trace := s.trace ++ [Event.dispatch (Do.dispatched env req s) (.ok res1)] ++
              [Event.getAuthConfig res1] ++ [Event.authenticate ac] ++
              [Event.tokenDispatch (tokenOutbound env s.client ac) (.ok tres)] ++
              [Event.Store tok] }
        | some (b, none) => .next { req with Body := b }
          { client := { s.client.storage.2 with Storage := some { token := some tok } },
            heap := Header.Add (Do.prepare env req s).2.heap.newMap.1
              (Do.prepare env req s).2.heap.newMap.2 "Content-Type"
              "application/x-www-form-urlencoded",
            sent := s.sent + 1 + 1,
            ticks := (newBearerToken env (Do.prepare env req s).2.ticks tres).2,
            trace := s.trace ++ [Event.dispatch (Do.dispatched env req s) (.ok res1)] ++
              [Event.getAuthConfig res1] ++ [Event.authenticate ac] ++
              [Event.tokenDispatch (tokenOutbound env s.client ac) (.ok tres)] ++
              [Event.Store tok] }
        | some (b, some e) => .ret (.error e) { req with Body := b }
          { client := { s.client.storage.2 with Storage := some { token := some tok } },
            heap := Header.Add (Do.prepare env req s).2.heap.newMap.1
              (Do.prepare env req s).2.heap.newMap.2 "Content-Type"
              "application/x-www-form-urlencoded",
            sent := s.sent + 1 + 1,
            ticks := (newBearerToken env (Do.prepare env req s).2.ticks tres).2,
            trace := s.trace ++ [Event.dispatch (Do.dispatched env req s) (.ok res1)] ++
              [Event.getAuthConfig res1] ++ [Event.authenticate ac] ++
              [Event.tokenDispatch (tokenOutbound env s.client ac) (.ok tres)] ++
              [Event.Store tok] } := by
  have hrun := authenticate_run env
    { (Do.prepare env req s).2 with
      sent := s.sent + 1,
      trace := s.trace ++ [Event.dispatch (Do.dispatched env req s) (.ok res1)] ++
        [Event.getAuthConfig res1] } ac tres hurl
    (by
      show env.roundTrip (s.sent + 1) (tokenOutbound env (Do.prepare env req s).2.client ac) = _
      rw [prepare_client, tokenOutbound_storage]; exact htok) h200
  unfold Do.iter
  simp only [prepare_sent, prepare_trace, h1, h401, ne_eq, not_true_eq_false, gt_iff_lt,
    lt_self_iff_false, or_self, if_false, hac]
  rw [hrun]
  simp only [prepare_client, tokenOutbound_storage]
  cases hnb : (newBearerToken env (Do.prepare env req s).2.ticks tres).1 with
  | error e => rfl
  | ok tok =>
    simp only
    rcases hb : req.GetBody with _ | ⟨b, _ | e⟩ <;> simp only [storage_Store]

/-! ## The retry loop: claims C1, C3 -/

/-- C1: whatever the transport and the token endpoint answer, a call of
`Client.Do` with fuel for two passes returns, and the events it adds to the
record hold at most two dispatches of the request and at most one call of
`authenticate`; when two dispatches were made, `Do` returns exactly what the
transport answered to the second one (so a second 401 response is returned
with a nil error). -/
theorem Do_at_most_one_retry (env : Env) (fuel : Nat) (req : Request) (s : State)
    (hfuel : 2 ≤ fuel) :
    ∃ o evs, Client.Do env fuel req s = some o ∧ o.state.trace = s.trace ++ evs ∧
      evs.countP Event.isDispatch ≤ 2 ∧ evs.countP Event.isAuthenticate ≤ 1 ∧
      ∀ r1 a1 r2 a2,
        evs.filter Event.isDispatch = [Event.dispatch r1 a1, Event.dispatch r2 a2] →
        o.result = a2 := by
  obtain ⟨n, rfl⟩ : ∃ n, fuel = n + 2 := ⟨fuel - 2, by omega⟩
  obtain ⟨_, _, rest, f3, f4, f5⟩ := iter_facts env 0 req s
  unfold Client.Do Do.loop
  cases hi : Do.iter env 0 req s with
  | ret out r1 s1 =>
    rw [hi] at f3
    refine ⟨_, Event.dispatch (Do.dispatched env req s)
        (env.roundTrip s.sent (Do.dispatched env req s)) :: rest, rfl, f3, ?_, ?_, ?_⟩
    · simp [List.countP_cons, Event.isDispatch, f4]
    · simpa [List.countP_cons, Event.isAuthenticate] using f5
    · intro r1 a1 r2 a2 h
      rw [List.filter_cons_of_pos (by rfl), countP_zero_filter _ _ f4] at h
      simp at h
  | next r1 s1 =>
    rw [hi] at f3
    simp only [Step.state] at f3
    simp only
    rw [loop_retried env n r1 s1]
    refine ⟨_, (Event.dispatch (Do.dispatched env req s)
        (env.roundTrip s.sent (Do.dispatched env req s)) :: rest) ++
      [Event.dispatch (Do.dispatched env r1 s1)
        (env.roundTrip s1.sent (Do.dispatched env r1 s1))], rfl, ?_, ?_, ?_, ?_⟩
    · show s1.trace ++ _ = _
      rw [f3, List.append_assoc]
    · simp [List.countP_cons, List.countP_append, Event.isDispatch, f4]
    · simpa [List.countP_cons, List.countP_append, Event.isAuthenticate] using f5
    · intro q1 a1 q2 a2 h
      rw [List.filter_append, List.filter_cons_of_pos (by rfl), countP_zero_filter _ _ f4,
        List.filter_cons_of_pos (by rfl)] at h
      simp only [List.filter_nil, List.cons_append, List.nil_append, List.cons.injEq,
        Event.dispatch.injEq, and_true] at h
      exact h.2.2

/-- C1 at a server that answers 401 to every request: `Do` returns after two
dispatches and one acquisition. -/
theorem Do_at_most_one_retry_witness :
    ∃ o evs, Client.Do (rejectingEnv ⟨"3600", "abc"⟩ fun _ => 0) 2 (sampleRequest none)
        (sampleState none) = some o ∧
      o.state.trace = (sampleState none).trace ++ evs ∧
      evs.countP Event.isDispatch ≤ 2 ∧ evs.countP Event.isAuthenticate ≤ 1 ∧
      ∀ r1 a1 r2 a2,
        evs.filter Event.isDispatch = [Event.dispatch r1 a1, Event.dispatch r2 a2] →
        o.result = a2 :=
  Do_at_most_one_retry _ 2 _ _ (by decide)

/-- C3: when the transport answers the first dispatch with a response whose
status is not 401, `Client.Do` returns that response with a nil error; the
only event it adds to the record is that one dispatch (no call of
`getAuthConfig`, of `authenticate` or of `Store`, no second dispatch), the
caller's request is as before and the token in the cache is the one that was
there before the call. -/
theorem Do_passes_through (env : Env) (fuel : Nat) (req : Request) (s : State) (res : Response)
    (hfuel : 1 ≤ fuel)
    (h : env.roundTrip s.sent (Do.dispatched env req s) = .ok res)
    (hs : res.StatusCode ≠ 401) :
    ∃ o, Client.Do env fuel req s = some o ∧ o.result = .ok res ∧ o.req = req ∧
      o.state.trace = s.trace ++ [Event.dispatch (Do.dispatched env req s) (.ok res)] ∧
      o.state.client.cached = s.client.cached := by
  obtain ⟨n, rfl⟩ : ∃ n, fuel = n + 1 := ⟨fuel - 1, by omega⟩
  have hi : Do.iter env 0 req s = .ret (.ok res) req
      { (Do.prepare env req s).2 with
        sent := s.sent + 1,
        trace := s.trace ++ [Event.dispatch (Do.dispatched env req s) (.ok res)] } := by
    unfold Do.iter
    simp only [prepare_sent, prepare_trace, h, hs, ne_eq, not_false_eq_true, true_or, if_true]
  unfold Client.Do Do.loop
  rw [hi]
  refine ⟨_, rfl, rfl, rfl, rfl, ?_⟩
  show (Do.prepare env req s).2.client.cached = _
  rw [prepare_client, storage_cached]

/-- C3 at a server that answers 403. -/
theorem Do_passes_through_witness :
    ∃ o, Client.Do (fixedEnv 403) 1 (sampleRequest none) (sampleState none) = some o ∧
      o.result = .ok ⟨403, "", [], ""⟩ ∧ o.req = sampleRequest none ∧
      o.state.trace = (sampleState none).trace ++
        [Event.dispatch (Do.dispatched (fixedEnv 403) (sampleRequest none) (sampleState none))
          (.ok ⟨403, "", [], ""⟩)] ∧
      o.state.client.cached = (sampleState none).client.cached :=
  Do_passes_through (fixedEnv 403) 1 (sampleRequest none) (sampleState none) ⟨403, "", [], ""⟩
    (by decide) rfl (by decide)

/-! ## Token construction: claims C7, C8 -/

theorem wrap64_small (n : Int) (h0 : 0 < n) (h1 : n ≤ 9223372036) :
    wrap64 (n * 1000000000) = n * 1000000000 := by
  unfold wrap64
  have e63 : (2 : Int) ^ 63 = 9223372036854775808 := by norm_num
  have e64 : (2 : Int) ^ 64 = 18446744073709551616 := by norm_num
  rw [e63, e64]
  omega

theorem newBearerToken_bad (env : Env) (res : Response) (t : tokenResponse)
    (hdec : env.decode res.Body = .ok t)
    (hbad : Number.Int64 t.ExpiresIn = .ok 0 ∨ t.AccessToken = "") :
    ∃ e, ∀ ticks, newBearerToken env ticks res = (.error e, ticks) := by
  unfold newBearerToken
  simp only [hdec]
  cases hn : Number.Int64 t.ExpiresIn with
  | error e => exact ⟨e, fun _ => rfl⟩
  | ok n =>
    refine ⟨"Invalid token response", fun ticks => ?_⟩
    have : n = 0 ∨ t.AccessToken = "" := by
      rcases hbad with h | h
      · rw [hn] at h; injection h with h; exact Or.inl h
      · exact Or.inr h
    simp only [this, if_true]

theorem newBearerToken_good (env : Env) (ticks : Nat) (res : Response) (t : tokenResponse)
    (n : Int) (hdec : env.decode res.Body = .ok t) (hn : Number.Int64 t.ExpiresIn = .ok n)
    (h0 : 0 < n) (h1 : n ≤ 9223372036) (ha : t.AccessToken ≠ "") :
    newBearerToken env ticks res =
      (.ok (.bearer { token := t.AccessToken, expiresAt := env.now ticks + n * 1000000000 }),
       ticks + 1) := by
  unfold newBearerToken
  have hne : ¬ (n = 0 ∨ t.AccessToken = "") := by
    rintro (h | h)
    · omega
    · exact ha h
  simp only [hdec, hn, hne, if_false, wrap64_small n h0 h1]

/-- C7, as stated, fails: with `expires_in` equal to -1 a token is constructed
whose expiry lies one second before the instant of construction, and with
`expires_in` equal to 9223372037 the product with `time.Second` wraps, and the
token constructed expires before the instant of construction as well. -/
theorem newBearerToken_expired_at_construction :
    newBearerToken (rejectingEnv ⟨"-1", "x"⟩ fun _ => 5000000000) 0 ⟨200, "200 OK", [], "token"⟩
      = (.ok (.bearer { token := "x", expiresAt := 4000000000 }), 1) ∧
    newBearerToken (rejectingEnv ⟨"9223372037", "x"⟩ fun _ => 5000000000) 0
        ⟨200, "200 OK", [], "token"⟩
      = (.ok (.bearer { token := "x", expiresAt := -9223372031709551616 }), 1) := by
  decide

/-- C7, amended: every token `newBearerToken` constructs has a non-empty secret
and an `expires_in` different from zero, and its expiry is the instant of
construction plus `expires_in` seconds computed in `int64`; construction
fails when `expires_in` is zero or the access token is empty; and when
`0 < expires_in ≤ 9223372036` (the product with `time.Second` does not wrap)
and the access token is not empty, construction succeeds with an expiry
strictly later than the instant of construction. -/
theorem newBearerToken_invariant (env : Env) (ticks : Nat) (res : Response) :
    (∀ tok, (newBearerToken env ticks res).1 = .ok tok →
      ∃ t n, env.decode res.Body = .ok t ∧ Number.Int64 t.ExpiresIn = .ok n ∧ n ≠ 0 ∧
        t.AccessToken ≠ "" ∧
        tok = .bearer { token := t.AccessToken,
                        expiresAt := env.now ticks + wrap64 (n * 1000000000) }) ∧
    (∀ t, env.decode res.Body = .ok t →
      (Number.Int64 t.ExpiresIn = .ok 0 ∨ t.AccessToken = "") →
      ∃ e, (newBearerToken env ticks res).1 = .error e) ∧
    (∀ t n, env.decode res.Body = .ok t → Number.Int64 t.ExpiresIn = .ok n →
      0 < n → n ≤ 9223372036 → t.AccessToken ≠ "" →
      ∃ d, (newBearerToken env ticks res).1 = .ok (.bearer d) ∧ d.token = t.AccessToken ∧
        d.expiresAt = env.now ticks + n * 1000000000 ∧ env.now ticks < d.expiresAt) := by
  refine ⟨?_, ?_, ?_⟩
  · intro tok h
    unfold newBearerToken at h
    cases hdec : env.decode res.Body with
    | error e => rw [hdec] at h; cases h
    | ok t =>
      cases hn : Number.Int64 t.ExpiresIn with
      | error e => simp only [hdec, hn] at h; cases h
      | ok n =>
        simp only [hdec, hn] at h
        by_cases hb : n = 0 ∨ t.AccessToken = ""
        · rw [if_pos hb] at h; cases h
        · rw [if_neg hb] at h
          injection h with h
          exact ⟨t, n, rfl, hn, fun e => hb (Or.inl e), fun e => hb (Or.inr e), h.symm⟩
  · intro t hdec hbad
    obtain ⟨e, he⟩ := newBearerToken_bad env res t hdec hbad
    exact ⟨e, by rw [he ticks]⟩
  · intro t n hdec hn h0 h1 ha
    refine ⟨_, by rw [newBearerToken_good env ticks res t n hdec hn h0 h1 ha], rfl, rfl, ?_⟩
    show env.now ticks < env.now ticks + n * 1000000000
    omega

/-- C7, amended, at the response `{access_token: "abc", expires_in: 3600}`. -/
theorem newBearerToken_invariant_witness :
    ∃ d, (newBearerToken (rejectingEnv ⟨"3600", "abc"⟩ fun _ => 0) 0
        ⟨200, "200 OK", [], "token"⟩).1 = .ok (.bearer d) ∧ d.token = "abc" ∧
      d.expiresAt = 0 + 3600 * 1000000000 ∧ (0 : Int) < d.expiresAt :=
  (newBearerToken_invariant (rejectingEnv ⟨"3600", "abc"⟩ fun _ => 0) 0
    ⟨200, "200 OK", [], "token"⟩).2.2 ⟨"3600", "abc"⟩ 3600 rfl (by decide) (by decide)
    (by decide) (by decide)

/-- C8: when the first answer is a 401 with a challenge that parses and the
token endpoint answers 200 with a body in which `expires_in` is 0 or
`access_token` is empty, then `newBearerToken` fails with an error,
`Client.authenticate` returns that error, and `Client.Do` returns that error
and no response after the one dispatch: the events added to the record are
the dispatch, `getAuthConfig`, `authenticate` and the token request (no
`Store`, no second dispatch), and the cache holds the token it held before. -/
theorem Do_invalid_token_response (env : Env) (fuel : Nat) (req : Request) (s : State)
    (res1 tres : Response) (ac : authConfig) (t : tokenResponse)
    (hfuel : 1 ≤ fuel)
    (h1 : env.roundTrip s.sent (Do.dispatched env req s) = .ok res1)
    (h401 : res1.StatusCode = 401) (hac : getAuthConfig res1 = .ok ac)
    (hurl : env.urlError (ac.endpoint ++ tokenPath ++ "?api-version=" ++ oauthAPIVersion) = none)
    (htok : env.roundTrip (s.sent + 1) (tokenOutbound env s.client ac) = .ok tres)
    (h200 : tres.StatusCode = 200)
    (hdec : env.decode tres.Body = .ok t)
    (hbad : Number.Int64 t.ExpiresIn = .ok 0 ∨ t.AccessToken = "") :
    ∃ e o, (∀ ticks, (newBearerToken env ticks tres).1 = .error e) ∧
      (∀ s1 : State, env.roundTrip s1.sent (tokenOutbound env s1.client ac) = .ok tres →
        (Client.authenticate env s1 ac).1 = .error e ∧
        (Client.authenticate env s1 ac).2.client = s1.client) ∧
      Client.Do env fuel req s = some o ∧ o.result = .error e ∧ o.req = req ∧
      o.state.trace = s.trace ++
        [Event.dispatch (Do.dispatched env req s) (.ok res1), Event.getAuthConfig res1,
         Event.authenticate ac, Event.tokenDispatch (tokenOutbound env s.client ac) (.ok tres)] ∧
      o.state.client.cached = s.client.cached := by
  obtain ⟨n, rfl⟩ : ∃ n, fuel = n + 1 := ⟨fuel - 1, by omega⟩
  obtain ⟨e, he⟩ := newBearerToken_bad env tres t hdec hbad
  have hi := iter_challenged env req s res1 tres ac h1 h401 hac hurl htok h200
  rw [he] at hi
  simp only at hi
  have hdo : Client.Do env (n + 1) req s =
      some { result := .error e, req := req, state := (Do.iter env 0 req s).state } := by
    unfold Client.Do Do.loop
    rw [hi]
    rfl
  refine ⟨e, _, fun ticks => by rw [he ticks], ?_, hdo, rfl, rfl, ?_, ?_⟩
  · intro s1 hs1
    rw [authenticate_run env s1 ac tres hurl hs1 h200, he]
    exact ⟨rfl, rfl⟩
  · show (Do.iter env 0 req s).state.trace = _
    rw [hi]
    simp [Step.state]
  · show (Do.iter env 0 req s).state.client.cached = _
    rw [hi]
    exact storage_cached s.client

/-- C8 at a token endpoint that answers `{access_token: "abc", expires_in: 0}`. -/
theorem Do_invalid_token_response_witness :
    ∃ e o, (∀ ticks, (newBearerToken (rejectingEnv ⟨"0", "abc"⟩ fun _ => 0) ticks
        ⟨200, "200 OK", [], "token"⟩).1 = .error e) ∧
      (∀ s1 : State,
        (rejectingEnv ⟨"0", "abc"⟩ fun _ => 0).roundTrip s1.sent
          (tokenOutbound (rejectingEnv ⟨"0", "abc"⟩ fun _ => 0) s1.client
            ⟨"https://login/t", "https://vault"⟩) = .ok ⟨200, "200 OK", [], "token"⟩ →
        (Client.authenticate (rejectingEnv ⟨"0", "abc"⟩ fun _ => 0) s1
            ⟨"https://login/t", "https://vault"⟩).1 = .error e ∧
        (Client.authenticate (rejectingEnv ⟨"0", "abc"⟩ fun _ => 0) s1
            ⟨"https://login/t", "https://vault"⟩).2.client = s1.client) ∧
      Client.Do (rejectingEnv ⟨"0", "abc"⟩ fun _ => 0) 1 (sampleRequest none)
        (sampleState none) = some o ∧
      o.result = .error e ∧ o.req = sampleRequest none ∧
      o.state.trace = (sampleState none).trace ++
        [Event.dispatch (Do.dispatched (rejectingEnv ⟨"0", "abc"⟩ fun _ => 0)
            (sampleRequest none) (sampleState none))
          (.ok ⟨401, "401 Unauthorized", sampleChallenge, ""⟩),
         Event.getAuthConfig ⟨401, "401 Unauthorized", sampleChallenge, ""⟩,
         Event.authenticate ⟨"https://login/t", "https://vault"⟩,
         Event.tokenDispatch (tokenOutbound (rejectingEnv ⟨"0", "abc"⟩ fun _ => 0)
            (sampleState none).client ⟨"https://login/t", "https://vault"⟩)
          (.ok ⟨200, "200 OK", [], "token"⟩)] ∧
      o.state.client.cached = (sampleState none).client.cached :=
  Do_invalid_token_response (rejectingEnv ⟨"0", "abc"⟩ fun _ => 0) 1 (sampleRequest none)
    (sampleState none) ⟨401, "401 Unauthorized", sampleChallenge, ""⟩
    ⟨200, "200 OK", [], "token"⟩ ⟨"https://login/t", "https://vault"⟩ ⟨"0", "abc"⟩
    (by decide) (by decide) (by decide) (by decide) rfl rfl (by decide) rfl
    (Or.inl (by decide))

/-! ## The authenticated retry: claim C2 -/

theorem cached_stored (c : Client) (t : Token) :
    ({ c.storage.2 with Storage := some { token := some t } } : Client).cached = t := by
  obtain ⟨id, sec, st⟩ := c
  cases st <;> rfl

/-- C2, as stated, fails, each time with an empty cache, a first 401 with a
well-formed challenge and a token endpoint answering 200 with a non-empty
access token and a positive `expires_in`: when the request's `GetBody` fails,
`Do` returns that error after a single dispatch; when `expires_in` is
9223372037 the stored token is already expired and the second request carries
no `Authorization`; and when the clock has passed the expiry by the time of
the second attempt the second request carries no `Authorization` either. -/
theorem Do_retry_without_token :
    (Client.Do (rejectingEnv ⟨"3600", "abc"⟩ fun _ => 0) 2
        (sampleRequest (some (none, some "body cannot be replayed")))
        (sampleState none)).map (fun o => (o.result, authorizations o.state.trace))
      = some (.error "body cannot be replayed", [none]) ∧
    (Client.Do (rejectingEnv ⟨"9223372037", "abc"⟩ fun _ => 0) 2 (sampleRequest none)
        (sampleState none)).map (fun o => authorizations o.state.trace)
      = some [none, none] ∧
    (Client.Do (rejectingEnv ⟨"1", "abc"⟩ jumpingClock) 2 (sampleRequest none)
        (sampleState none)).map (fun o => authorizations o.state.trace)
      = some [none, none] := by
  decide

/-- C2, amended: with an empty cache, a first answer 401 whose challenge
parses, a token endpoint that answers 200 with `{access_token: a,
expires_in: n}` where `a` is not empty and `0 < n ≤ 9223372036`, a request
whose `GetBody` is nil or succeeds, and a clock that at the second attempt
reads less than `n` seconds after the construction of the token: `Client.Do`
dispatches exactly two requests, stores the token, the second request has the
caller's method, URL and headers with `Authorization` set to `Bearer a`, and
`Do` returns exactly what the transport answered to the second request. -/
theorem Do_retries_with_token (env : Env) (fuel : Nat) (req : Request) (s : State)
    (res1 tres : Response) (ac : authConfig) (a nstr : String) (n : Int)
    (hfuel : 2 ≤ fuel)
    (hcache : s.client.cached = Token.noToken)
    (hheap : s.heap.holds req.Header)
    (h1 : env.roundTrip s.sent (req.outbound s.heap) = .ok res1)
    (h401 : res1.StatusCode = 401) (hac : getAuthConfig res1 = .ok ac)
    (hurl : env.urlError (ac.endpoint ++ tokenPath ++ "?api-version=" ++ oauthAPIVersion) = none)
    (htok : env.roundTrip (s.sent + 1) (tokenOutbound env s.client ac) = .ok tres)
    (h200 : tres.StatusCode = 200)
    (hdec : env.decode tres.Body = .ok { ExpiresIn := nstr, AccessToken := a })
    (hn : Number.Int64 nstr = .ok n) (ha : a ≠ "") (hpos : 0 < n) (hmax : n ≤ 9223372036)
    (hbody : req.GetBody = none ∨ ∃ b, req.GetBody = some (b, none))
    (hclock : env.now (s.ticks + 1) < env.now s.ticks + n * 1000000000) :
    ∃ o out2, Client.Do env fuel req s = some o ∧
      o.state.trace = s.trace ++
        [Event.dispatch (req.outbound s.heap) (.ok res1), Event.getAuthConfig res1,
         Event.authenticate ac, Event.tokenDispatch (tokenOutbound env s.client ac) (.ok tres),
         Event.Store (.bearer { token := a, expiresAt := env.now s.ticks + n * 1000000000 }),
         Event.dispatch out2 (env.roundTrip (s.sent + 2) out2)] ∧
      o.result = env.roundTrip (s.sent + 2) out2 ∧
      out2.Method = req.Method ∧ out2.URL = req.URL ∧
      out2.Header.lookup "Authorization" = some ["Bearer " ++ a] ∧
      (∀ k, k ≠ "Authorization" → out2.Header.lookup k = (s.heap.header req.Header).lookup k) ∧
      o.state.client.cached =
        .bearer { token := a, expiresAt := env.now s.ticks + n * 1000000000 } := by
  obtain ⟨m, rfl⟩ : ∃ m, fuel = m + 2 := ⟨fuel - 2, by omega⟩
  have hinv : (s.client.cached.IsValid env s.ticks).1 = false := by rw [hcache]; rfl
  have hticks : (s.client.cached.IsValid env s.ticks).2 = s.ticks := by rw [hcache]; rfl
  have hd : Do.dispatched env req s = req.outbound s.heap := dispatched_invalid env req s hinv
  have hp := prepare_invalid env req s hinv
  have hpt : (Do.prepare env req s).2.ticks = s.ticks := by rw [hp]; exact hticks
  have hph : (Do.prepare env req s).2.heap = s.heap := by rw [hp]
  have hnb := newBearerToken_good env s.ticks tres ⟨nstr, a⟩ n hdec hn hpos hmax ha
  have hi := iter_challenged env req s res1 tres ac (by rw [hd]; exact h1) h401 hac hurl htok h200
  rw [hpt, hph, hnb, hd] at hi
  simp only at hi
  -- the request and the state at the start of the second pass
  obtain ⟨req2, s2, hreq2, hc2, hh2e, hs2, ht2, htr2, hi2⟩ : ∃ (req2 : Request) (s2 : State),
      (req2.Header = req.Header ∧ req2.Method = req.Method ∧ req2.URL = req.URL) ∧
      s2.client = { s.client.storage.2 with
        Storage := some { token := some (.bearer
          { token := a, expiresAt := env.now s.ticks + n * 1000000000 }) } } ∧
      s2.heap = Header.Add s.heap.newMap.1 s.heap.newMap.2 "Content-Type"
        "application/x-www-form-urlencoded" ∧
      s2.sent = s.sent + 2 ∧ s2.ticks = s.ticks + 1 ∧
      s2.trace = s.trace ++
        [Event.dispatch (req.outbound s.heap) (.ok res1), Event.getAuthConfig res1,
         Event.authenticate ac, Event.tokenDispatch (tokenOutbound env s.client ac) (.ok tres),
         Event.Store (.bearer { token := a, expiresAt := env.now s.ticks + n * 1000000000 })] ∧
      Do.iter env 0 req s = .next req2 s2 := by
    rcases hbody with hb | ⟨b, hb⟩
    · rw [hb] at hi
      refine ⟨_, _, ?_, ?_, ?_, ?_, ?_, ?_, hi⟩
      · exact ⟨rfl, rfl, rfl⟩
      · rfl
      · rfl
      · rfl
      · rfl
      · simp
    · rw [hb] at hi
      simp only at hi
      refine ⟨_, _, ?_, ?_, ?_, ?_, ?_, ?_, hi⟩
      · exact ⟨rfl, rfl, rfl⟩
      · rfl
      · rfl
      · rfl
      · rfl
      · simp
  have hw : s.heap.within s2.heap := by
    rw [hh2e]; exact Add_within _ _ _ (newMap_within _) (le_refl _)
  have hh2 : s2.heap.holds req2.Header := by
    rw [hreq2.1]; exact holds_of_within hw _ hheap
  obtain ⟨v1, v2, _, v4⟩ := dispatched_valid env req2 s2
    { token := a, expiresAt := env.now s.ticks + n * 1000000000 }
    (by rw [hc2]; exact cached_stored s.client _) (by rw [ht2]; exact hclock) hh2
  have hdo : Client.Do env (m + 2) req s =
      some { result := env.roundTrip s2.sent (Do.dispatched env req2 s2), req := req2,
             state := { (Do.prepare env req2 s2).2 with
               sent := s2.sent + 1,
               trace := s2.trace ++ [Event.dispatch (Do.dispatched env req2 s2)
                 (env.roundTrip s2.sent (Do.dispatched env req2 s2))] } } := by
    unfold Client.Do Do.loop
    rw [hi2]
    simp only
    rw [loop_retried]
  refine ⟨_, Do.dispatched env req2 s2, hdo, ?_, ?_, v1.trans hreq2.2.1, v2.trans hreq2.2.2,
    ?_, ?_, ?_⟩
  · show s2.trace ++ _ = _
    rw [htr2, hs2]; simp
  · show env.roundTrip s2.sent _ = _
    rw [hs2]
  · rw [v4]; simp
  · intro k hk
    rw [v4 k, if_neg hk, hreq2.1, header_of_within hw _ hheap]
  · show (Do.prepare env req2 s2).2.client.cached = _
    rw [prepare_client, storage_cached, hc2]
    exact cached_stored s.client _

/-- C2, amended, at the token response `{access_token: "abc", expires_in: 3600}`. -/
theorem Do_retries_with_token_witness :
    ∃ o out2, Client.Do (rejectingEnv ⟨"3600", "abc"⟩ fun _ => 0) 2 (sampleRequest none)
        (sampleState none) = some o ∧
      o.state.trace = (sampleState none).trace ++
        [Event.dispatch ((sampleRequest none).outbound (sampleState none).heap)
          (.ok ⟨401, "401 Unauthorized", sampleChallenge, ""⟩),
         Event.getAuthConfig ⟨401, "401 Unauthorized", sampleChallenge, ""⟩,
         Event.authenticate ⟨"https://login/t", "https://vault"⟩,
         Event.tokenDispatch (tokenOutbound (rejectingEnv ⟨"3600", "abc"⟩ fun _ => 0)
            (sampleState none).client ⟨"https://login/t", "https://vault"⟩)
          (.ok ⟨200, "200 OK", [], "token"⟩),
         Event.Store (.bearer { token := "abc", expiresAt := 0 + 3600 * 1000000000 }),
         Event.dispatch out2
          ((rejectingEnv ⟨"3600", "abc"⟩ fun _ => 0).roundTrip ((sampleState none).sent + 2)
            out2)] ∧
      o.result = (rejectingEnv ⟨"3600", "abc"⟩ fun _ => 0).roundTrip
        ((sampleState none).sent + 2) out2 ∧
      out2.Method = (sampleRequest none).Method ∧ out2.URL = (sampleRequest none).URL ∧
      out2.Header.lookup "Authorization" = some ["Bearer " ++ "abc"] ∧
      (∀ k, k ≠ "Authorization" → out2.Header.lookup k =
        ((sampleState none).heap.header (sampleRequest none).Header).lookup k) ∧
      o.state.client.cached = .bearer { token := "abc", expiresAt := 0 + 3600 * 1000000000 } :=
  Do_retries_with_token (rejectingEnv ⟨"3600", "abc"⟩ fun _ => 0) 2 (sampleRequest none)
    (sampleState none) ⟨401, "401 Unauthorized", sampleChallenge, ""⟩
    ⟨200, "200 OK", [], "token"⟩ ⟨"https://login/t", "https://vault"⟩ "abc" "3600" 3600
    (by decide) (by decide) (by decide) (by decide) (by decide) (by decide) rfl rfl (by decide)
    rfl (by decide) (by decide) (by decide) (by decide) (Or.inl rfl) (by decide)

/-! ## Attaching the token and copying the request: claims C9, C10 -/

/-- C9: in every pass of the loop of `Client.Do` the request handed to the
transport is `Do.dispatched`, and it carries `Authorization: Bearer <secret>`
exactly when the cached token is valid at that moment. With a nil storage the
cache returns the `noToken`, which is not valid and whose `SetHeader` leaves
the heap as it is; with the `noToken` in the cache, or a token whose
`expiresAt` is not after the clock reading, the transport is handed the
caller's request with the caller's headers; with a token whose `expiresAt` is
after the clock reading, it is handed the caller's method, URL and body, and
the caller's headers with `Authorization` set to `Bearer <secret>`. -/
theorem dispatch_carries_token (env : Env) (attempt : Nat) (req : Request) (s : State) :
    (∃ rest, (Do.iter env attempt req s).state.trace =
        s.trace ++ Event.dispatch (Do.dispatched env req s)
          (env.roundTrip s.sent (Do.dispatched env req s)) :: rest ∧
      rest.countP Event.isDispatch = 0) ∧
    (s.client.Storage = none → s.client.cached = Token.noToken) ∧
    (∀ ticks h r, Token.noToken.IsValid env ticks = (false, ticks) ∧
      Token.noToken.SetHeader h r = h) ∧
    (s.client.cached = Token.noToken → Do.dispatched env req s = req.outbound s.heap) ∧
    (∀ d, s.client.cached = Token.bearer d → ¬ env.now s.ticks < d.expiresAt →
      Do.dispatched env req s = req.outbound s.heap) ∧
    (∀ d, s.client.cached = Token.bearer d → env.now s.ticks < d.expiresAt →
      s.heap.holds req.Header →
      (Do.dispatched env req s).Method = req.Method ∧
      (Do.dispatched env req s).URL = req.URL ∧
      (Do.dispatched env req s).Body = req.Body ∧
      (Do.dispatched env req s).Header.lookup "Authorization" = some ["Bearer " ++ d.token] ∧
      ∀ k, k ≠ "Authorization" →
        (Do.dispatched env req s).Header.lookup k = (s.heap.header req.Header).lookup k) := by
  refine ⟨?_, ?_, ?_, ?_, ?_, ?_⟩
  · obtain ⟨_, _, rest, f3, f4, _⟩ := iter_facts env attempt req s
    exact ⟨rest, f3, f4⟩
  · intro h
    unfold Client.cached Client.storage
    rw [h]
    rfl
  · intro ticks h r
    exact ⟨rfl, by unfold Token.SetHeader; rfl⟩
  · intro h
    exact dispatched_invalid env req s (by rw [h]; rfl)
  · intro d h hv
    exact dispatched_invalid env req s (by rw [h]; simp [Token.IsValid, hv])
  · intro d h hv hh
    obtain ⟨v1, v2, v3, v4⟩ := dispatched_valid env req s d h hv hh
    refine ⟨v1, v2, v3, ?_, ?_⟩
    · rw [v4]; simp
    · intro k hk
      rw [v4 k, if_neg hk]

/-- C9 at a cache that holds the token `abc`, valid until instant 10. -/
theorem dispatch_carries_token_witness :
    (Do.dispatched (fixedEnv 200) (sampleRequest none)
      (sampleState (some ⟨some (.bearer ⟨"abc", 10⟩)⟩))).Method = (sampleRequest none).Method ∧
    (Do.dispatched (fixedEnv 200) (sampleRequest none)
      (sampleState (some ⟨some (.bearer ⟨"abc", 10⟩)⟩))).URL = (sampleRequest none).URL ∧
    (Do.dispatched (fixedEnv 200) (sampleRequest none)
      (sampleState (some ⟨some (.bearer ⟨"abc", 10⟩)⟩))).Body = (sampleRequest none).Body ∧
    (Do.dispatched (fixedEnv 200) (sampleRequest none)
      (sampleState (some ⟨some (.bearer ⟨"abc", 10⟩)⟩))).Header.lookup "Authorization"
      = some ["Bearer " ++ (⟨"abc", 10⟩ : defaultToken).token] ∧
    ∀ k, k ≠ "Authorization" →
      (Do.dispatched (fixedEnv 200) (sampleRequest none)
        (sampleState (some ⟨some (.bearer ⟨"abc", 10⟩)⟩))).Header.lookup k
      = ((sampleState (some ⟨some (.bearer ⟨"abc", 10⟩)⟩)).heap.header
          (sampleRequest none).Header).lookup k :=
  (dispatch_carries_token (fixedEnv 200) 0 (sampleRequest none)
    (sampleState (some ⟨some (.bearer ⟨"abc", 10⟩)⟩))).2.2.2.2.2 ⟨"abc", 10⟩ rfl (by decide)
    (by decide)

/-- C10: for a request whose header map lives in the heap, `copyRequest`
returns a request whose header is a new map with the same keys and values as
the source, none of whose value slices is a slice of the source map, and
setting a key on the copy leaves the header of the source as it was; and every
call of `Client.Do` (with fuel for two passes) returns with the caller's
request pointing to the same header map, with every map and slice that was in
the heap before the call unchanged, hence with the same keys and values in the
caller's header. -/
theorem Do_keeps_caller_header (env : Env) (fuel : Nat) (req : Request) (s : State)
    (hfuel : 2 ≤ fuel) (hh : s.heap.holds req.Header) :
    ((copyRequest s.heap req).2.Header = some s.heap.maps.length ∧
      (copyRequest s.heap req).2.Header ≠ req.Header ∧
      s.heap.within (copyRequest s.heap req).1 ∧
      (∀ k, (copyRequest s.heap req).1.values (copyRequest s.heap req).2.Header k
        = s.heap.values req.Header k) ∧
      (∀ k a k1 b, ((copyRequest s.heap req).1.map (copyRequest s.heap req).2.Header).lookup k
          = some a → (s.heap.map req.Header).lookup k1 = some b → a ≠ b) ∧
      (∀ key value, (Header.Set (copyRequest s.heap req).1 s.heap.maps.length key value).header
          req.Header = s.heap.header req.Header)) ∧
    ∃ o, Client.Do env fuel req s = some o ∧ o.req.Header = req.Header ∧
      s.heap.within o.state.heap ∧
      o.state.heap.header o.req.Header = s.heap.header req.Header := by
  obtain ⟨c1, c2, c3, c4, c5⟩ := copyRequest_facts s.heap req hh
  refine ⟨⟨c2, ?_, c1, c5, ?_, ?_⟩, ?_⟩
  · rw [c2]
    intro h
    cases hr : req.Header with
    | none => rw [hr] at h; cases h
    | some a =>
      rw [hr] at h hh
      injection h with h
      have := hh.1
      omega
  · intro k a k1 b ha hb
    have h1 := (c4 k a ha).1
    have h2 : b < s.heap.slices.length := by
      cases hr : req.Header with
      | none => rw [hr] at hb; cases hb
      | some m =>
        rw [hr] at hb hh
        exact hh.2 ⟨k1, b⟩ (AList.mem_lookup_iff.1 hb)
    omega
  · intro key value
    exact header_of_within (Set_within _ _ _ c1 (le_refl _)) _ hh
  · obtain ⟨o, ho⟩ := Do_returns env fuel req s hfuel
    obtain ⟨f1, f2⟩ := loop_frame env fuel 0 req s o ho
    exact ⟨o, ho, f1, f2, by rw [f1]; exact header_of_within f2 _ hh⟩

/-- C10 at a call that attaches nothing on the first attempt, is answered with
401, acquires a token and retries with a copy that carries it. -/
theorem Do_keeps_caller_header_witness :
    ∃ o, Client.Do (rejectingEnv ⟨"3600", "abc"⟩ fun _ => 0) 2 (sampleRequest none)
        (sampleState none) = some o ∧
      o.req.Header = (sampleRequest none).Header ∧
      (sampleState none).heap.within o.state.heap ∧
      o.state.heap.header o.req.Header
        = (sampleState none).heap.header (sampleRequest none).Header :=
  (Do_keeps_caller_header (rejectingEnv ⟨"3600", "abc"⟩ fun _ => 0) 2 (sampleRequest none)
    (sampleState none) (by decide) (by decide)).2

end keyvault
